import Mathlib

/-!
Verification of the factor-ranking and quarterly-expansion core of the
finance-data-pipeline repository.

The embedding models:
* `FactorRanking.rank_stocks_by_factor` (src/processing/factor_ranking.py):
  per-date cross-sectional ranking with pandas' default method='average',
  `ascending = positive_corr`, and NaN ranks replaced by the sentinel 0
  (`.fillna(0)`).
* `FactorRanking.calculate_weighted_rank`: iterated outer merge of N rank
  tables on (datetime, asset), `dropna`, weighted row sum, and a final
  re-rank through `rank_stocks_by_factor`.
* `FinLabFactorFetcher.extend_factor_data` (src/factors/finlab_factor_fetcher.py):
  `pd.merge(trading_days_df, factor_data, on="index", how="outer")` with the
  default `sort=False` (left rows keep their order; unmatched right rows are
  appended at the end in their own order), then `ffill`, then trimming to
  `[trading_days.min(), trading_days.max()]`.
* `FinLabFactorFetcher.convert_quarter_to_dates` / `convert_date_to_quarter`:
  quarter-label parsing and the Taiwan disclosure-window mapping, with
  `datetime.strptime(_, "%Y-%m-%d")` modelled at the character level
  (%Y is exactly four digits, %m and %d are one or two digits with value
  checks, %d also accepts a space-padded single digit, and the resulting
  (year, month, day) must be a real calendar date with year at least 1,
  matching CPython's _strptime regexes and `datetime.date` range checks).
  Python strings are modelled as `List Char`.

Dates in the tabular models are encoded as natural numbers (e.g. 20240102
for 2024-01-02); the encoding is order-preserving, which is all the code
under study needs.  Numeric (float) factor values and ranks are modelled
as rationals, missing values (NaN) as `none`.
-/

/-- A long-format factor record: columns datetime, asset, value.
A NaN factor value is `none`. -/
structure Row where
  datetime : Nat
  asset : String
  value : Option ℚ
deriving DecidableEq

/-- A record of a ranked table: the input columns plus the rank column
appended by `rank_stocks_by_factor`. -/
structure RankedRow where
  datetime : Nat
  asset : String
  value : Option ℚ
  rank : ℚ
deriving DecidableEq

/-- pandas `Series.rank(ascending := asc)` with the default
method='average', evaluated at value `v` against the multiset `g` of
non-null values of its group: (number of values strictly preceding `v` in
the chosen direction) plus (ties + 1) / 2, i.e. the mean of the ordinal
positions spanned by the tie group of `v`. -/
def rkq (g : List ℚ) (asc : Bool) (v : ℚ) : ℚ :=
  ((g.countP (fun u => if asc then decide (u < v) else decide (v < u)) : ℚ))
    + (((g.countP (fun u => decide (u = v)) : ℚ)) + 1) / 2

/-- The non-null values of the date-`d` group of `df` (pandas ranking
skips NaN entries when ranking the others). -/
def groupVals (df : List Row) (d : Nat) : List ℚ :=
  (df.filter (fun r => decide (r.datetime = d))).filterMap (fun r => r.value)

/-- `FactorRanking.rank_stocks_by_factor`: group by datetime, rank the
value column with `ascending = positive_corr` (method 'average'), give
rank 0 to null values (`.fillna(0)`), keep every input record aligned. -/
def rank_stocks_by_factor (df : List Row) (positive_corr : Bool) : List RankedRow :=
  df.map (fun r =>
    { datetime := r.datetime
      asset := r.asset
      value := r.value
      rank :=
        match r.value with
        | none => 0
        | some v => rkq (groupVals df r.datetime) positive_corr v })

/-- A record of an input table of `calculate_weighted_rank`:
columns datetime, asset, rank. -/
structure RankRow where
  datetime : Nat
  asset : String
  rank : ℚ
deriving DecidableEq

/-- An intermediate record of the iterated merge inside
`calculate_weighted_rank`: key columns plus the accumulated
`rank_0 … rank_{i-1}` columns (NaN entries produced by the outer
merge are `none`). -/
structure CRow where
  datetime : Nat
  asset : String
  ranks : List (Option ℚ)
deriving DecidableEq

/-- An output record of `calculate_weighted_rank`:
columns datetime, asset, weighted_rank. -/
structure WRow where
  datetime : Nat
  asset : String
  weighted_rank : ℚ
deriving DecidableEq

/-- Key equality for the merge on `["datetime", "asset"]`. -/
def matchKey (c : CRow) (r : RankRow) : Bool :=
  decide (c.datetime = r.datetime) && decide (c.asset = r.asset)

/-- One step `combined = combined.merge(part, on=["datetime","asset"],
how="outer")` of `calculate_weighted_rank`, where `part` carries
`rank_i = df[rank_column] * weights[i]`.  `n` is the number of rank
columns accumulated so far.  pandas keeps the left rows in order (each
matched right row contributing one output row, NaN in the new column if
unmatched) and appends right-only rows, whose `n` accumulated columns
are NaN, at the end. -/
def mergeOuter (left : List CRow) (n : Nat) (t : List RankRow) (w : ℚ) : List CRow :=
  (left.flatMap (fun c =>
    if (t.filter (fun r => matchKey c r)).isEmpty then
      [⟨c.datetime, c.asset, c.ranks ++ [none]⟩]
    else
      (t.filter (fun r => matchKey c r)).map
        (fun r => ⟨c.datetime, c.asset, c.ranks ++ [some (r.rank * w)]⟩)))
  ++ ((t.filter (fun r => !(left.any (fun c => matchKey c r)))).map
      (fun r => ⟨r.datetime, r.asset, List.replicate n (none : Option ℚ) ++ [some (r.rank * w)]⟩))

/-- The `combined` frame built by the loop of `calculate_weighted_rank`:
`none` when the loop body never runs (`combined` stays Python `None`). -/
def combinedOf (tables : List (List RankRow)) (weights : List ℚ) : Option (List CRow) :=
  match tables.zip weights with
  | [] => none
  | (t, w) :: rest =>
    some ((rest.foldl (fun acc tw => (mergeOuter acc.1 acc.2 tw.1 tw.2, acc.2 + 1))
      (t.map (fun r => (⟨r.datetime, r.asset, [some (r.rank * w)]⟩ : CRow)), 1)).1)

/-- `combined.filter(like="rank_").sum(axis=1)`: row sum of the rank
columns (pandas sums with skipna, irrelevant after `dropna`). -/
def sumRanks (l : List (Option ℚ)) : ℚ := l.foldl (fun a o => a + o.getD 0) 0

/-- `FactorRanking.calculate_weighted_rank`: validate the lengths, outer
merge all tables on (datetime, asset), `dropna`, sum the weighted rank
columns into a value column, and re-rank it per date through
`rank_stocks_by_factor`, returning datetime, asset, weighted_rank. -/
def calculate_weighted_rank (tables : List (List RankRow)) (weights : List ℚ)
    (positive_corr : Bool) : Except String (List WRow) :=
  if tables.length ≠ weights.length then
    .error "ranked_dfs and weights must have the same length"
  else
    match combinedOf tables weights with
    | none => .error "AttributeError: NoneType has no attribute dropna"
    | some combined =>
      let kept := combined.filter (fun c => c.ranks.all Option.isSome)
      let summed := kept.map (fun c => (⟨c.datetime, c.asset, some (sumRanks c.ranks)⟩ : Row))
      .ok ((rank_stocks_by_factor summed positive_corr).map
        (fun r => (⟨r.datetime, r.asset, r.rank⟩ : WRow)))

/-! ### Helper lemmas about the average ranking -/

lemma sum_Icc_shift_cast (a : Nat) :
    ∀ k : Nat, (∑ i in Finset.Icc (a + 1) (a + k), (i : ℚ)) = k * (2 * a + k + 1) / 2 := by
  intro k
  induction k with
  | zero =>
    have h : Finset.Icc (a + 1) (a + 0) = ∅ := by
      apply Finset.Icc_eq_empty
      omega
    rw [h]
    simp
  | succ k ih =>
    have h : a + (k + 1) = (a + k) + 1 := by omega
    rw [h, Finset.sum_Icc_succ_top (by omega), ih]
    push_cast
    ring

lemma rkq_strict_min (g : List ℚ) (v : ℚ)
    (huniq : g.countP (fun u => decide (u = v)) = 1)
    (hmin : ∀ u ∈ g, ¬ u < v) :
    rkq g true v = 1 := by
  have h0 : g.countP (fun u => decide (u < v)) = 0 :=
    List.countP_eq_zero.mpr (fun u hu => by simpa using hmin u hu)
  simp [rkq, h0, huniq]

lemma rkq_strict_max (g : List ℚ) (v : ℚ)
    (huniq : g.countP (fun u => decide (u = v)) = 1)
    (hmax : ∀ u ∈ g, ¬ v < u) :
    rkq g false v = 1 := by
  have h0 : g.countP (fun u => decide (v < u)) = 0 :=
    List.countP_eq_zero.mpr (fun u hu => by simpa using hmax u hu)
  simp [rkq, h0, huniq]

lemma filter_map_pred {α β : Type} (f : α → β) (p : β → Bool) (q : α → Bool)
    (hpq : ∀ r, p (f r) = q r) (l : List α) :
    (l.map f).filter p = (l.filter q).map f := by
  rw [List.filter_map]
  congr 1
  exact List.filter_congr (fun x _ => by simp [Function.comp, hpq x])

/-- C1: amended ranking-direction claim.  The two concrete rankings and the
per-date independence hold exactly as stated; the general direction
statement holds in the amended form: when the smallest (resp. largest for
descending) value of a date group is attained by a single record, that
record receives rank 1.  (With a tie at the extreme, pandas'
method='average' assigns the tied records a common fractional rank instead
of 1 — see the counterexample.) -/
theorem C1_rank_direction_and_independence :
    (rank_stocks_by_factor
        [⟨20240101, "A", some 30⟩, ⟨20240101, "B", some 10⟩, ⟨20240101, "C", some 20⟩] true
      = [⟨20240101, "A", some 30, 3⟩, ⟨20240101, "B", some 10, 1⟩,
         ⟨20240101, "C", some 20, 2⟩])
    ∧ (rank_stocks_by_factor
        [⟨20240101, "A", some 30⟩, ⟨20240101, "B", some 10⟩, ⟨20240101, "C", some 20⟩] false
      = [⟨20240101, "A", some 30, 1⟩, ⟨20240101, "B", some 10, 3⟩,
         ⟨20240101, "C", some 20, 2⟩])
    ∧ (∀ (df : List Row) (r : Row) (v : ℚ), r ∈ df → r.value = some v →
        (groupVals df r.datetime).countP (fun u => decide (u = v)) = 1 →
        (∀ u ∈ groupVals df r.datetime, v ≤ u) →
        (⟨r.datetime, r.asset, r.value, 1⟩ : RankedRow) ∈ rank_stocks_by_factor df true)
    ∧ (∀ (df : List Row) (r : Row) (v : ℚ), r ∈ df → r.value = some v →
        (groupVals df r.datetime).countP (fun u => decide (u = v)) = 1 →
        (∀ u ∈ groupVals df r.datetime, u ≤ v) →
        (⟨r.datetime, r.asset, r.value, 1⟩ : RankedRow) ∈ rank_stocks_by_factor df false)
    ∧ (∀ (df df2 : List Row) (pc : Bool) (d : Nat),
        df.filter (fun r => decide (r.datetime = d))
          = df2.filter (fun r => decide (r.datetime = d)) →
        (rank_stocks_by_factor df pc).filter (fun r => decide (r.datetime = d))
          = (rank_stocks_by_factor df2 pc).filter (fun r => decide (r.datetime = d))) := by
  refine ⟨?_, ?_, ?_, ?_, ?_⟩
  · simp [rank_stocks_by_factor, rkq, groupVals]
    norm_num
  · simp [rank_stocks_by_factor, rkq, groupVals]
    norm_num
  · intro df r v hr hv huniq hmin
    refine List.mem_map.mpr ⟨r, hr, ?_⟩
    rw [hv]
    have h1 : rkq (groupVals df r.datetime) true v = 1 :=
      rkq_strict_min _ _ huniq (fun u hu => not_lt.mpr (hmin u hu))
    simp [h1]
  · intro df r v hr hv huniq hmax
    refine List.mem_map.mpr ⟨r, hr, ?_⟩
    rw [hv]
    have h1 : rkq (groupVals df r.datetime) false v = 1 :=
      rkq_strict_max _ _ huniq (fun u hu => not_lt.mpr (hmax u hu))
    simp [h1]
  · intro df df2 pc d h
    have hg : groupVals df d = groupVals df2 d := by
      unfold groupVals
      rw [h]
    unfold rank_stocks_by_factor
    rw [filter_map_pred _ _ (fun r => decide (r.datetime = d)) (fun r => rfl),
      filter_map_pred _ _ (fun r => decide (r.datetime = d)) (fun r => rfl), ← h]
    refine List.map_congr_left ?_
    intro r hrmem
    have hd : r.datetime = d := by
      have := (List.mem_filter.mp hrmem).2
      simpa using this
    simp only [hd, hg]

/-- C1 counterexample: on values {A:10, B:10, C:20} on one date, 10 is the
smallest value of the group, yet under ascending=true its records receive
rank 3/2, not rank 1, because pandas' method='average' averages the tied
positions. -/
theorem C1_tie_counterexample :
    groupVals [⟨1, "A", some 10⟩, ⟨1, "B", some 10⟩, ⟨1, "C", some 20⟩] 1 = [10, 10, 20]
    ∧ rank_stocks_by_factor [⟨1, "A", some 10⟩, ⟨1, "B", some 10⟩, ⟨1, "C", some 20⟩] true
      = [⟨1, "A", some 10, 3/2⟩, ⟨1, "B", some 10, 3/2⟩, ⟨1, "C", some 20, 3⟩]
    ∧ ((3 : ℚ)/2 ≠ 1) := by
  refine ⟨by simp [groupVals], ?_, by norm_num⟩
  simp [rank_stocks_by_factor, rkq, groupVals]
  norm_num

/-- C1 witness: the general direction statements of the amended claim
applied at concrete inputs. -/
theorem C1_witness :
    (⟨1, "A", some 10, 1⟩ : RankedRow)
      ∈ rank_stocks_by_factor [⟨1, "A", some 10⟩, ⟨1, "B", some 20⟩] true
    ∧ (⟨1, "B", some 20, 1⟩ : RankedRow)
      ∈ rank_stocks_by_factor [⟨1, "A", some 10⟩, ⟨1, "B", some 20⟩] false := by
  constructor
  · exact C1_rank_direction_and_independence.2.2.1
      [⟨1, "A", some 10⟩, ⟨1, "B", some 20⟩] ⟨1, "A", some 10⟩ 10
      (by simp) rfl (by simp [groupVals, List.countP_cons, List.filterMap_cons])
      (by rintro u hu; simp [groupVals] at hu; rcases hu with rfl | rfl <;> norm_num)
  · exact C1_rank_direction_and_independence.2.2.2.1
      [⟨1, "A", some 10⟩, ⟨1, "B", some 20⟩] ⟨1, "B", some 20⟩ 20
      (by simp) rfl (by simp [groupVals, List.countP_cons, List.filterMap_cons])
      (by rintro u hu; simp [groupVals] at hu; rcases hu with rfl | rfl <;> norm_num)

/-- C7: `rank_stocks_by_factor` keeps every input record (row count is
unchanged) and a record whose value is missing is kept in place with the
sentinel rank 0 rather than dropped. -/
theorem C7_null_sentinel_and_row_count (df : List Row) (pc : Bool) :
    (rank_stocks_by_factor df pc).length = df.length
    ∧ ∀ (i : Nat) (r : Row), df[i]? = some r → r.value = none →
        (rank_stocks_by_factor df pc)[i]? = some ⟨r.datetime, r.asset, none, 0⟩ := by
  constructor
  · simp [rank_stocks_by_factor]
  · intro i r hi hv
    unfold rank_stocks_by_factor
    rw [List.getElem?_map, hi]
    simp [hv]

/-- C7 witness: row count and sentinel on a concrete two-row frame with a
null value. -/
theorem C7_witness :
    (rank_stocks_by_factor [⟨1, "A", none⟩, ⟨1, "B", some 5⟩] true).length = 2
    ∧ (rank_stocks_by_factor [⟨1, "A", none⟩, ⟨1, "B", some 5⟩] true)[0]?
        = some ⟨1, "A", none, 0⟩ := by
  refine ⟨(C7_null_sentinel_and_row_count [⟨1, "A", none⟩, ⟨1, "B", some 5⟩] true).1, ?_⟩
  exact (C7_null_sentinel_and_row_count [⟨1, "A", none⟩, ⟨1, "B", some 5⟩] true).2
    0 ⟨1, "A", none⟩ rfl rfl

/-- C10: the implicit tie rule.  Tied values in a date group all receive
the average of the ordinal positions their tie group spans (pandas'
default method='average'), so tie ranks can be fractional: with values
{A:10, B:10, C:20}, A and B both receive 3/2 and C receives 3.  In
general, for a member `v` of a group `g`, writing L for the number of
group values strictly before `v` in the ranking direction and E for the
number of values equal to `v`, the rank is the mean of positions
L+1 … L+E.  The very same ranking function performs the final re-rank
inside `calculate_weighted_rank`. -/
theorem C10_average_tie_rule :
    (rank_stocks_by_factor [⟨1, "A", some 10⟩, ⟨1, "B", some 10⟩, ⟨1, "C", some 20⟩] true
      = [⟨1, "A", some 10, 3/2⟩, ⟨1, "B", some 10, 3/2⟩, ⟨1, "C", some 20, 3⟩])
    ∧ (∀ (g : List ℚ) (b : Bool) (v : ℚ), v ∈ g →
        rkq g b v
          = (∑ i in Finset.Icc
                ((g.countP (fun u => if b then decide (u < v) else decide (v < u))) + 1)
                ((g.countP (fun u => if b then decide (u < v) else decide (v < u)))
                  + (g.countP (fun u => decide (u = v)))), (i : ℚ))
            / (g.countP (fun u => decide (u = v))))
    ∧ (∀ (tables : List (List RankRow)) (weights : List ℚ) (pc : Bool) (out : List WRow),
        calculate_weighted_rank tables weights pc = .ok out →
        ∃ summed : List Row,
          out = (rank_stocks_by_factor summed pc).map
            (fun r => (⟨r.datetime, r.asset, r.rank⟩ : WRow))) := by
  refine ⟨?_, ?_, ?_⟩
  · simp [rank_stocks_by_factor, rkq, groupVals]
    norm_num
  · intro g b v hv
    have hE : 0 < g.countP (fun u => decide (u = v)) :=
      List.countP_pos_iff.mpr ⟨v, hv, by simp⟩
    rw [sum_Icc_shift_cast]
    have hEQ : ((g.countP (fun u => decide (u = v)) : ℚ)) ≠ 0 := by
      exact_mod_cast hE.ne'
    unfold rkq
    field_simp
    ring
  · intro tables weights pc out h
    unfold calculate_weighted_rank at h
    split at h
    · exact absurd h (by simp)
    · split at h
      · exact absurd h (by simp)
      · exact ⟨_, (Except.ok.injEq _ _).mp h |>.symm⟩

/-- C10 witness: the general tie formula applied at the concrete group
[10, 10, 20] with v = 10 (a member of the group): rank = mean of the
positions 1..2 = 3/2. -/
theorem C10_witness :
    (10 : ℚ) ∈ [(10 : ℚ), 10, 20]
    ∧ rkq [(10 : ℚ), 10, 20] true 10 = (∑ i in Finset.Icc (1 : Nat) 2, (i : ℚ)) / 2 := by
  refine ⟨by simp, ?_⟩
  have h := C10_average_tie_rule.2.1 [(10 : ℚ), 10, 20] true 10 (by simp)
  simpa [List.countP_cons, decide_eq_true_eq] using h

/-! ### Key-membership lemmas for the weighted-rank merge -/

lemma mem_mergeOuter_allSome (left : List CRow) (n : Nat) (t : List RankRow) (w : ℚ)
    (hn : 1 ≤ n) (k : Nat × String) :
    (∃ c ∈ mergeOuter left n t w, (c.datetime, c.asset) = k ∧ c.ranks.all Option.isSome)
    ↔ ((∃ c ∈ left, (c.datetime, c.asset) = k ∧ c.ranks.all Option.isSome)
        ∧ ∃ r ∈ t, (r.datetime, r.asset) = k) := by
  constructor
  · rintro ⟨c, hc, hk, hsome⟩
    rcases List.mem_append.mp hc with hleft | hright
    · rcases List.mem_flatMap.mp hleft with ⟨c0, hc0, hmem⟩
      by_cases hms : (t.filter (fun r => matchKey c0 r)).isEmpty
      · rw [if_pos hms] at hmem
        rcases List.mem_singleton.mp hmem with rfl
        simp at hsome
      · rw [if_neg hms] at hmem
        rcases List.mem_map.mp hmem with ⟨r, hrfil, rfl⟩
        rcases List.mem_filter.mp hrfil with ⟨hrt, hmat⟩
        have hkeys : c0.datetime = r.datetime ∧ c0.asset = r.asset := by
          simpa [matchKey] using hmat
        simp only at hk hsome
        rw [List.all_append] at hsome
        refine ⟨⟨c0, hc0, ?_, ?_⟩, ⟨r, hrt, ?_⟩⟩
        · exact hk
        · simpa using hsome
        · rw [← hkeys.1, ← hkeys.2]
          exact hk
    · rcases List.mem_map.mp hright with ⟨r, hrfil, rfl⟩
      simp only at hsome
      rw [List.all_append] at hsome
      have : (List.replicate n (none : Option ℚ)).all Option.isSome = false := by
        cases n with
        | zero => omega
        | succ m => simp [List.replicate_succ]
      rw [this] at hsome
      simp at hsome
  · rintro ⟨⟨c, hc, hk, hsome⟩, ⟨r, hr, hrk⟩⟩
    have hdt : c.datetime = r.datetime := by
      have h1 := hk.trans hrk.symm
      exact (Prod.mk.injEq _ _ _ _).mp h1 |>.1
    have has : c.asset = r.asset := by
      have h1 := hk.trans hrk.symm
      exact (Prod.mk.injEq _ _ _ _).mp h1 |>.2
    have hmat : matchKey c r = true := by
      simp [matchKey, hdt, has]
    have hrfil : r ∈ t.filter (fun r => matchKey c r) := List.mem_filter.mpr ⟨hr, hmat⟩
    have hms : ¬ (t.filter (fun r => matchKey c r)).isEmpty := by
      intro hemp
      rw [List.isEmpty_iff] at hemp
      rw [hemp] at hrfil
      simp at hrfil
    refine ⟨⟨c.datetime, c.asset, c.ranks ++ [some (r.rank * w)]⟩, ?_, ?_, ?_⟩
    · refine List.mem_append.mpr (Or.inl ?_)
      refine List.mem_flatMap.mpr ⟨c, hc, ?_⟩
      rw [if_neg hms]
      exact List.mem_map.mpr ⟨r, hrfil, rfl⟩
    · exact hk
    · rw [List.all_append]
      simp [hsome]

lemma mem_mergeBase (t : List RankRow) (w : ℚ) (k : Nat × String) :
    (∃ c ∈ t.map (fun r => (⟨r.datetime, r.asset, [some (r.rank * w)]⟩ : CRow)),
        (c.datetime, c.asset) = k ∧ c.ranks.all Option.isSome)
    ↔ ∃ r ∈ t, (r.datetime, r.asset) = k := by
  constructor
  · rintro ⟨c, hc, hk, hsome⟩
    rcases List.mem_map.mp hc with ⟨r, hr, rfl⟩
    exact ⟨r, hr, hk⟩
  · rintro ⟨r, hr, hk⟩
    exact ⟨⟨r.datetime, r.asset, [some (r.rank * w)]⟩,
      List.mem_map.mpr ⟨r, hr, rfl⟩, hk, by simp⟩

lemma foldl_merge_allSome :
    ∀ (rest : List (List RankRow × ℚ)) (acc : List CRow) (n : Nat), 1 ≤ n →
    ∀ k : Nat × String,
    ((∃ c ∈ (rest.foldl (fun acc tw => (mergeOuter acc.1 acc.2 tw.1 tw.2, acc.2 + 1)) (acc, n)).1,
        (c.datetime, c.asset) = k ∧ c.ranks.all Option.isSome)
      ↔ ((∃ c ∈ acc, (c.datetime, c.asset) = k ∧ c.ranks.all Option.isSome)
          ∧ ∀ tw ∈ rest, ∃ r ∈ tw.1, (r.datetime, r.asset) = k)) := by
  intro rest
  induction rest with
  | nil => intro acc n hn k; simp
  | cons tw rest ih =>
    intro acc n hn k
    rw [List.foldl_cons]
    rw [ih (mergeOuter acc n tw.1 tw.2) (n + 1) (by omega) k]
    rw [mem_mergeOuter_allSome acc n tw.1 tw.2 hn k]
    rw [List.forall_mem_cons]
    tauto


lemma out_keys_iff (combined : List CRow) (pc : Bool) (k : Nat × String) :
    (∃ r ∈ ((rank_stocks_by_factor
        ((combined.filter (fun c => c.ranks.all Option.isSome)).map
          (fun c => (⟨c.datetime, c.asset, some (sumRanks c.ranks)⟩ : Row))) pc).map
        (fun r => (⟨r.datetime, r.asset, r.rank⟩ : WRow))), (r.datetime, r.asset) = k)
    ↔ ∃ c ∈ combined, (c.datetime, c.asset) = k ∧ c.ranks.all Option.isSome := by
  unfold rank_stocks_by_factor
  constructor
  · rintro ⟨r, hr, hk⟩
    rcases List.mem_map.mp hr with ⟨rr, hrr, rfl⟩
    rcases List.mem_map.mp hrr with ⟨row, hrow, rfl⟩
    rcases List.mem_map.mp hrow with ⟨c, hc, rfl⟩
    rcases List.mem_filter.mp hc with ⟨hcmem, hcsome⟩
    exact ⟨c, hcmem, hk, hcsome⟩
  · rintro ⟨c, hc, hk, hsome⟩
    exact ⟨_, List.mem_map.mpr ⟨_, List.mem_map.mpr ⟨_,
      List.mem_map.mpr ⟨c, List.mem_filter.mpr ⟨hc, hsome⟩, rfl⟩, rfl⟩, rfl⟩, hk⟩

/-- C2: inner-join semantics of `calculate_weighted_rank`.  For N ≥ 1 rank
tables and matching weights, the call succeeds (no error is raised for
missing pairs) and the set of (datetime, asset) keys of the output is
exactly the set of keys present in every input table: a pair missing from
any one table on a date is silently absent from the output. -/
theorem C2_weighted_rank_inner_join (t0 : List RankRow) (ts : List (List RankRow))
    (weights : List ℚ) (pc : Bool)
    (hlen : (t0 :: ts).length = weights.length) :
    ∃ out, calculate_weighted_rank (t0 :: ts) weights pc = .ok out
      ∧ ∀ k : Nat × String,
          (∃ r ∈ out, (r.datetime, r.asset) = k)
          ↔ (∀ t ∈ t0 :: ts, ∃ r ∈ t, (r.datetime, r.asset) = k) := by
  rcases weights with _ | ⟨w0, ws⟩
  · simp at hlen
  have hle : ts.length ≤ ws.length := by
    simp only [List.length_cons] at hlen
    omega
  have hcomb : combinedOf (t0 :: ts) (w0 :: ws)
      = some ((List.foldl (fun acc tw => (mergeOuter acc.1 acc.2 tw.1 tw.2, acc.2 + 1))
          (t0.map (fun r => (⟨r.datetime, r.asset, [some (r.rank * w0)]⟩ : CRow)), 1)
          (ts.zip ws)).1) := rfl
  have hout : calculate_weighted_rank (t0 :: ts) (w0 :: ws) pc
      = .ok ((rank_stocks_by_factor
          ((((List.foldl (fun acc tw => (mergeOuter acc.1 acc.2 tw.1 tw.2, acc.2 + 1))
              (t0.map (fun r => (⟨r.datetime, r.asset, [some (r.rank * w0)]⟩ : CRow)), 1)
              (ts.zip ws)).1).filter (fun c => c.ranks.all Option.isSome)).map
            (fun c => (⟨c.datetime, c.asset, some (sumRanks c.ranks)⟩ : Row))) pc).map
          (fun r => (⟨r.datetime, r.asset, r.rank⟩ : WRow))) := by
    unfold calculate_weighted_rank
    rw [if_neg (by simp [hlen]), hcomb]
  refine ⟨_, hout, ?_⟩
  · intro k
    rw [out_keys_iff _ pc k,
      foldl_merge_allSome (ts.zip ws)
        (t0.map (fun r => (⟨r.datetime, r.asset, [some (r.rank * w0)]⟩ : CRow))) 1
        (by omega) k,
      mem_mergeBase t0 w0 k, List.forall_mem_cons]
    have hzz : (∀ tw ∈ ts.zip ws, ∃ r ∈ tw.1, (r.datetime, r.asset) = k)
        ↔ (∀ t ∈ ts, ∃ r ∈ t, (r.datetime, r.asset) = k) := by
      constructor
      · intro h t ht
        rw [← List.map_fst_zip ts ws hle] at ht
        rcases List.mem_map.mp ht with ⟨tw, htw, rfl⟩
        exact h tw htw
      · intro h tw htw
        apply h
        rw [← List.map_fst_zip ts ws hle]
        exact List.mem_map.mpr ⟨tw, htw, rfl⟩
    rw [hzz]

/-- C2 witness: a concrete two-table instance; asset B is missing from the
second table, so the key set of the output is exactly the keys present in
both tables. -/
theorem C2_witness :
    ∃ out, calculate_weighted_rank
        [[⟨1, "A", 1⟩, ⟨1, "B", 2⟩], [⟨1, "A", 3⟩]] [1, 1] true = .ok out
      ∧ ∀ k : Nat × String,
          (∃ r ∈ out, (r.datetime, r.asset) = k)
          ↔ (∀ t ∈ [[(⟨1, "A", 1⟩ : RankRow), ⟨1, "B", 2⟩], [⟨1, "A", 3⟩]],
              ∃ r ∈ t, (r.datetime, r.asset) = k) :=
  C2_weighted_rank_inner_join [⟨1, "A", 1⟩, ⟨1, "B", 2⟩] [[⟨1, "A", 3⟩]] [1, 1] true rfl

/-! ### Idempotence of average ranking (re-ranking ranks reproduces them) -/

lemma rkq_true (g : List ℚ) (v : ℚ) :
    rkq g true v = ((g.countP (fun u => decide (u < v)) : ℚ))
      + (((g.countP (fun u => decide (u = v)) : ℚ)) + 1) / 2 := rfl

lemma rkq_false (g : List ℚ) (v : ℚ) :
    rkq g false v = ((g.countP (fun u => decide (v < u)) : ℚ))
      + (((g.countP (fun u => decide (u = v)) : ℚ)) + 1) / 2 := rfl

lemma countP_le_split (l : List ℚ) (v : ℚ) :
    l.countP (fun u => decide (u < v)) + l.countP (fun u => decide (u = v))
      = l.countP (fun u => decide (u ≤ v)) := by
  induction l with
  | nil => simp
  | cons a l ih =>
    simp only [List.countP_cons]
    rcases lt_trichotomy a v with h | h | h
    · simp [h, ne_of_lt h, le_of_lt h]
      omega
    · simp [h]
      omega
    · simp [not_lt.mpr (le_of_lt h), (ne_of_lt h).symm, not_le.mpr h]
      omega

lemma countP_ge_split (l : List ℚ) (v : ℚ) :
    l.countP (fun u => decide (v < u)) + l.countP (fun u => decide (u = v))
      = l.countP (fun u => decide (v ≤ u)) := by
  induction l with
  | nil => simp
  | cons a l ih =>
    simp only [List.countP_cons]
    rcases lt_trichotomy a v with h | h | h
    · simp [not_lt.mpr (le_of_lt h), ne_of_lt h, not_le.mpr h]
      omega
    · simp [h]
      omega
    · simp [h, le_of_lt h, (ne_of_lt h).symm]
      omega

lemma rkq_mono_true (g : List ℚ) (v w : ℚ) (hv : v ∈ g) (hvw : v < w) :
    rkq g true v < rkq g true w := by
  have h1 : g.countP (fun u => decide (u < v)) + g.countP (fun u => decide (u = v))
      ≤ g.countP (fun u => decide (u < w)) := by
    rw [countP_le_split]
    exact List.countP_mono_left (fun x _ hx => by
      simp only [decide_eq_true_eq] at hx ⊢
      exact lt_of_le_of_lt hx hvw)
  have hEv : 1 ≤ g.countP (fun u => decide (u = v)) :=
    List.countP_pos_iff.mpr ⟨v, hv, by simp⟩
  have h1q : ((g.countP (fun u => decide (u < v)) : ℚ))
      + ((g.countP (fun u => decide (u = v)) : ℚ))
      ≤ ((g.countP (fun u => decide (u < w)) : ℚ)) := by exact_mod_cast h1
  have hEvq : (1 : ℚ) ≤ ((g.countP (fun u => decide (u = v)) : ℚ)) := by exact_mod_cast hEv
  have hEwq : (0 : ℚ) ≤ ((g.countP (fun u => decide (u = w)) : ℚ)) := by positivity
  rw [rkq_true, rkq_true]
  linarith

lemma rkq_mono_false (g : List ℚ) (v w : ℚ) (hw : w ∈ g) (hvw : v < w) :
    rkq g false w < rkq g false v := by
  have h1 : g.countP (fun u => decide (w < u)) + g.countP (fun u => decide (u = w))
      ≤ g.countP (fun u => decide (v < u)) := by
    rw [countP_ge_split]
    exact List.countP_mono_left (fun x _ hx => by
      simp only [decide_eq_true_eq] at hx ⊢
      exact lt_of_lt_of_le hvw hx)
  have hEw : 1 ≤ g.countP (fun u => decide (u = w)) :=
    List.countP_pos_iff.mpr ⟨w, hw, by simp⟩
  have h1q : ((g.countP (fun u => decide (w < u)) : ℚ))
      + ((g.countP (fun u => decide (u = w)) : ℚ))
      ≤ ((g.countP (fun u => decide (v < u)) : ℚ)) := by exact_mod_cast h1
  have hEwq : (1 : ℚ) ≤ ((g.countP (fun u => decide (u = w)) : ℚ)) := by exact_mod_cast hEw
  have hEvq : (0 : ℚ) ≤ ((g.countP (fun u => decide (u = v)) : ℚ)) := by positivity
  rw [rkq_false, rkq_false]
  linarith

lemma rkq_lt_iff_true (g : List ℚ) (x v : ℚ) (hx : x ∈ g) (hv : v ∈ g) :
    rkq g true x < rkq g true v ↔ x < v := by
  constructor
  · intro h
    by_contra hnot
    rcases eq_or_lt_of_le (not_lt.mp hnot) with heq | hlt
    · rw [heq] at h
      exact lt_irrefl _ h
    · exact absurd h (not_lt.mpr (le_of_lt (rkq_mono_true g v x hv hlt)))
  · exact rkq_mono_true g x v hx

lemma rkq_lt_iff_false (g : List ℚ) (x v : ℚ) (hx : x ∈ g) (hv : v ∈ g) :
    rkq g false x < rkq g false v ↔ v < x := by
  constructor
  · intro h
    by_contra hnot
    rcases eq_or_lt_of_le (not_lt.mp hnot) with heq | hlt
    · rw [← heq] at h
      exact lt_irrefl _ h
    · exact absurd h (not_lt.mpr (le_of_lt (rkq_mono_false g x v hv hlt)))
  · intro h
    exact rkq_mono_false g v x hx h

lemma rkq_eq_iff (g : List ℚ) (b : Bool) (x v : ℚ) (hx : x ∈ g) (hv : v ∈ g) :
    rkq g b x = rkq g b v ↔ x = v := by
  constructor
  · intro h
    by_contra hne
    rcases lt_or_gt_of_ne hne with hlt | hgt
    · cases b
      · exact absurd h (ne_of_gt (rkq_mono_false g x v hv hlt))
      · exact absurd h (ne_of_lt (rkq_mono_true g x v hx hlt))
    · cases b
      · exact absurd h (ne_of_lt (rkq_mono_false g v x hx hgt))
      · exact absurd h (ne_of_gt (rkq_mono_true g v x hv hgt))
  · intro h
    rw [h]

lemma rkq_rank_of_rank (g : List ℚ) (b : Bool) (v : ℚ) (hv : v ∈ g) :
    rkq (g.map (rkq g b)) true (rkq g b v) = rkq g b v := by
  have hlt : (g.map (rkq g b)).countP (fun u => decide (u < rkq g b v))
      = g.countP (fun u => if b then decide (u < v) else decide (v < u)) := by
    rw [List.countP_map]
    apply List.countP_congr
    intro x hx
    cases b
    · simp only [Function.comp, decide_eq_true_eq, Bool.false_eq_true, if_false]
      exact rkq_lt_iff_false g x v hx hv
    · simp only [Function.comp, decide_eq_true_eq, if_true]
      exact rkq_lt_iff_true g x v hx hv
  have heq : (g.map (rkq g b)).countP (fun u => decide (u = rkq g b v))
      = g.countP (fun u => decide (u = v)) := by
    rw [List.countP_map]
    apply List.countP_congr
    intro x hx
    simp only [Function.comp, decide_eq_true_eq]
    exact rkq_eq_iff g b x v hx hv
  rw [rkq_true, hlt, heq]
  cases b
  · rw [rkq_false]
    rfl
  · rw [rkq_true]
    rfl

lemma map_rank_filterMap (l : List Row) (φ : ℚ → ℚ)
    (hall : ∀ r ∈ l, ∃ v, r.value = some v) :
    l.map (fun r => match r.value with | none => (0 : ℚ) | some v => φ v)
      = (l.filterMap (fun r => r.value)).map φ := by
  induction l with
  | nil => simp
  | cons a l ih =>
    obtain ⟨v, hv⟩ := hall a (by simp)
    rw [List.map_cons, List.filterMap_cons, hv, ih (fun r hr => hall r (by simp [hr]))]
    simp

lemma groupVals_summed (F : List Row) (b : Bool) (d : Nat)
    (hall : ∀ r ∈ F, ∃ v, r.value = some v) :
    groupVals (F.map (fun r => (⟨r.datetime, r.asset,
        some (match r.value with
              | none => (0 : ℚ)
              | some v => rkq (groupVals F r.datetime) b v)⟩ : Row))) d
      = (groupVals F d).map (rkq (groupVals F d) b) := by
  show ((F.map (fun r => (⟨r.datetime, r.asset,
        some (match r.value with
              | none => (0 : ℚ)
              | some v => rkq (groupVals F r.datetime) b v)⟩ : Row))).filter
          (fun r => decide (r.datetime = d))).filterMap (fun r => r.value)
      = (groupVals F d).map (rkq (groupVals F d) b)
  rw [filter_map_pred _ _ (fun r => decide (r.datetime = d)) (fun r => rfl),
    List.filterMap_map]
  have hstep : (F.filter (fun r => decide (r.datetime = d))).filterMap
        ((fun r : Row => r.value) ∘ (fun r => (⟨r.datetime, r.asset,
          some (match r.value with
                | none => (0 : ℚ)
                | some v => rkq (groupVals F r.datetime) b v)⟩ : Row)))
      = (F.filter (fun r => decide (r.datetime = d))).map
          (fun r => match r.value with
                    | none => (0 : ℚ)
                    | some v => rkq (groupVals F r.datetime) b v) := by
    exact congrFun (List.filterMap_eq_map
      (fun r : Row => match r.value with
                      | none => (0 : ℚ)
                      | some v => rkq (groupVals F r.datetime) b v)) _
  rw [hstep]
  have hsame : (F.filter (fun r => decide (r.datetime = d))).map
        (fun r => match r.value with
                  | none => (0 : ℚ)
                  | some v => rkq (groupVals F r.datetime) b v)
      = (F.filter (fun r => decide (r.datetime = d))).map
          (fun r => match r.value with
                    | none => (0 : ℚ)
                    | some v => rkq (groupVals F d) b v) := by
    refine List.map_congr_left ?_
    intro r hr
    have hd : r.datetime = d := by
      have := (List.mem_filter.mp hr).2
      simpa using this
    rw [hd]
  rw [hsame]
  exact map_rank_filterMap _ _ (fun r hr => hall r (List.mem_filter.mp hr).1)

/-- C3: amended single-factor identity.  When the single rank table is the
output of `rank_stocks_by_factor` on a frame with no missing values (so it
contains no sentinel-0 ranks), `calculate_weighted_rank([T], [1.0], true)`
reproduces the original ranks as weighted_rank, row by row.  (For a rank
table containing the null sentinel 0 the identity fails — see the
counterexample — because the final re-rank maps the rank multiset
{0, 1, …} back to {1, 2, …}.) -/
theorem C3_single_factor_identity (F : List Row) (b : Bool)
    (hall : ∀ r ∈ F, ∃ v, r.value = some v) :
    calculate_weighted_rank
        [(rank_stocks_by_factor F b).map (fun r => (⟨r.datetime, r.asset, r.rank⟩ : RankRow))]
        [1] true
      = .ok ((rank_stocks_by_factor F b).map
          (fun r => (⟨r.datetime, r.asset, r.rank⟩ : WRow))) := by
  have hA : calculate_weighted_rank
      [(rank_stocks_by_factor F b).map (fun r => (⟨r.datetime, r.asset, r.rank⟩ : RankRow))]
      [1] true
      = .ok ((rank_stocks_by_factor
          (((((rank_stocks_by_factor F b).map
                (fun r => (⟨r.datetime, r.asset, r.rank⟩ : RankRow))).map
              (fun r => (⟨r.datetime, r.asset, [some (r.rank * 1)]⟩ : CRow))).filter
              (fun c => c.ranks.all Option.isSome)).map
            (fun c => (⟨c.datetime, c.asset, some (sumRanks c.ranks)⟩ : Row))) true).map
          (fun r => (⟨r.datetime, r.asset, r.rank⟩ : WRow))) := rfl
  have hfil : ((((rank_stocks_by_factor F b).map
        (fun r => (⟨r.datetime, r.asset, r.rank⟩ : RankRow))).map
      (fun r => (⟨r.datetime, r.asset, [some (r.rank * 1)]⟩ : CRow))).filter
      (fun c => c.ranks.all Option.isSome))
      = (((rank_stocks_by_factor F b).map
        (fun r => (⟨r.datetime, r.asset, r.rank⟩ : RankRow))).map
      (fun r => (⟨r.datetime, r.asset, [some (r.rank * 1)]⟩ : CRow))) := by
    refine List.filter_eq_self.mpr ?_
    intro c hc
    rcases List.mem_map.mp hc with ⟨r, _, rfl⟩
    simp
  rw [hA, hfil]
  have hsummed : ((((rank_stocks_by_factor F b).map
        (fun r => (⟨r.datetime, r.asset, r.rank⟩ : RankRow))).map
      (fun r => (⟨r.datetime, r.asset, [some (r.rank * 1)]⟩ : CRow))).map
      (fun c => (⟨c.datetime, c.asset, some (sumRanks c.ranks)⟩ : Row)))
      = F.map (fun r => (⟨r.datetime, r.asset,
          some (match r.value with
                | none => (0 : ℚ)
                | some v => rkq (groupVals F r.datetime) b v)⟩ : Row)) := by
    simp only [rank_stocks_by_factor, List.map_map]
    refine List.map_congr_left ?_
    intro r hr
    simp [sumRanks, Function.comp]
  rw [hsummed]
  simp only [rank_stocks_by_factor, List.map_map]
  refine congrArg Except.ok ?_
  refine List.map_congr_left ?_
  intro r hr
  obtain ⟨v, hv⟩ := hall r hr
  have hvmem : v ∈ groupVals F r.datetime := by
    unfold groupVals
    exact List.mem_filterMap.mpr ⟨r, List.mem_filter.mpr ⟨hr, by simp⟩, hv⟩
  simp only [Function.comp, hv]
  rw [groupVals_summed F b r.datetime hall]
  exact congrArg _ (rkq_rank_of_rank (groupVals F r.datetime) b v hvmem)

/-- C3 counterexample: the claim quantifies over every rank table T, but it
fails when T carries the sentinel rank 0 that `rank_stocks_by_factor`
produces for null values (first conjunct: such a table is a genuine
output of the ranking code).  For T = [(d1, A, rank 0), (d1, B, rank 1)],
the composite re-rank gives A weighted_rank 1, not its original rank 0. -/
theorem C3_sentinel_counterexample :
    rank_stocks_by_factor [⟨1, "A", none⟩, ⟨1, "B", some 5⟩] true
      = [⟨1, "A", none, 0⟩, ⟨1, "B", some 5, 1⟩]
    ∧ calculate_weighted_rank [[⟨1, "A", 0⟩, ⟨1, "B", 1⟩]] [1] true
      = .ok [⟨1, "A", 1⟩, ⟨1, "B", 2⟩]
    ∧ ((1 : ℚ) ≠ 0) := by
  refine ⟨?_, ?_, by norm_num⟩
  · simp [rank_stocks_by_factor, rkq, groupVals]
  · simp [calculate_weighted_rank, combinedOf, sumRanks, rank_stocks_by_factor,
      rkq, groupVals]
    norm_num

/-- C3 witness: the amended identity applied to the rank table produced
from a concrete null-free two-row frame. -/
theorem C3_witness :
    calculate_weighted_rank
        [(rank_stocks_by_factor [⟨1, "A", some 10⟩, ⟨1, "B", some 20⟩] true).map
          (fun r => (⟨r.datetime, r.asset, r.rank⟩ : RankRow))]
        [1] true
      = .ok ((rank_stocks_by_factor [⟨1, "A", some 10⟩, ⟨1, "B", some 20⟩] true).map
          (fun r => (⟨r.datetime, r.asset, r.rank⟩ : WRow))) := by
  refine C3_single_factor_identity [⟨1, "A", some 10⟩, ⟨1, "B", some 20⟩] true ?_
  intro r hr
  rcases List.mem_cons.mp hr with rfl | hr2
  · exact ⟨10, rfl⟩
  · rcases List.mem_cons.mp hr2 with rfl | h3
    · exact ⟨20, rfl⟩
    · simp at h3

/-! ### `FinLabFactorFetcher.extend_factor_data` -/

/-- A row of the wide quarterly factor table: the "index" (date) column
plus one value per instrument column (NaN entries are `none`). -/
structure TRow where
  date : Nat
  vals : List (Option ℚ)
deriving DecidableEq

/-- One row of `DataFrame.ffill()`: keep present values, replace NaN by
the previous (already filled) row's entry, column by column. -/
def fillRow (vals prev : List (Option ℚ)) : List (Option ℚ) :=
  List.zipWith (fun v p => match v with | some x => some x | none => p) vals prev

/-- `DataFrame.ffill()`: forward-fill every column downwards, starting
from an all-NaN virtual row. -/
def ffillAux (prev : List (Option ℚ)) : List TRow → List TRow
  | [] => []
  | r :: rs => ⟨r.date, fillRow r.vals prev⟩ :: ffillAux (fillRow r.vals prev) rs

/-- `Series.min()` of a date column (callers guarantee non-emptiness). -/
def minList (l : List Nat) : Nat :=
  match l with
  | [] => 0
  | x :: xs => xs.foldl min x

/-- `Series.max()` of a date column. -/
def maxList (l : List Nat) : Nat :=
  match l with
  | [] => 0
  | x :: xs => xs.foldl max x

/-- `trading_days_df.merge(factor_data, on="index", how="outer")` with the
default `sort=False`: every trading day in order (matched factor rows, or
an all-NaN row when the day has no factor row), followed by the factor
rows whose date is not a trading day, appended at the end in their own
order.  `nCols` is the number of instrument columns. -/
def mergeOuterDates (nCols : Nat) (tradingDays : List Nat) (factor : List TRow) : List TRow :=
  (tradingDays.flatMap (fun t =>
    if (factor.filter (fun r => decide (r.date = t))).isEmpty then
      [⟨t, List.replicate nCols none⟩]
    else
      factor.filter (fun r => decide (r.date = t))))
  ++ factor.filter (fun r => !(tradingDays.any (fun t => decide (r.date = t))))

/-- `FinLabFactorFetcher.extend_factor_data`: outer-merge the trading days
with the factor table on the date column, forward-fill, and keep the rows
whose date lies within `[trading_days.min(), trading_days.max()]`. -/
def extend_factor_data (nCols : Nat) (factor : List TRow) (tradingDays : List Nat) : List TRow :=
  (ffillAux (List.replicate nCols none) (mergeOuterDates nCols tradingDays factor)).filter
    (fun r => decide (minList tradingDays ≤ r.date) && decide (r.date ≤ maxList tradingDays))

/-- Insertion step of an insertion sort on dates (used only by the
spec-side reference algorithm below). -/
def insertSorted (d : Nat) : List Nat → List Nat
  | [] => [d]
  | x :: xs => if d ≤ x then d :: x :: xs else x :: insertSorted d xs

/-- Insertion sort, ascending (spec-side reference). -/
def sortAsc (l : List Nat) : List Nat := l.foldr insertSorted []

/-- Modelled from the spec's words (§4.2 Algorithm): "form the union of
all dates in trading_days and all dates present in factor_table, sort
ascending, then for every instrument column forward-fill missing values
using the most recent earlier known value; after filling, retain only
rows whose date lies within [min(trading_days), max(trading_days)]".
This is the reference algorithm the spec claims `extend_factor_data`
implements; it is compared against the code model above. -/
def extend_factor_data_spec (nCols : Nat) (factor : List TRow) (tradingDays : List Nat) :
    List TRow :=
  ((sortAsc (tradingDays
      ++ (factor.map (fun r => r.date)).filter
          (fun d => !(tradingDays.any (fun t => decide (t = d)))))).map
    (fun d =>
      match factor.find? (fun r => decide (r.date = d)) with
      | some r => r
      | none => ⟨d, List.replicate nCols none⟩)
    |> ffillAux (List.replicate nCols none)).filter
    (fun r => decide (minList tradingDays ≤ r.date) && decide (r.date ≤ maxList tradingDays))

/-- Column-wise null monotonicity between two consecutive rows: a column
that is null in the later row was already null in the earlier one (holds
between consecutive rows of any forward-filled table). -/
def nullMono (a b : List (Option ℚ)) : Prop :=
  ∀ j : Nat, b[j]? = some none → a[j]? = some none

lemma sortAsc_eq_self : ∀ (l : List Nat), List.Chain' (· < ·) l → sortAsc l = l := by
  intro l
  induction l with
  | nil => intro _; rfl
  | cons x xs ih =>
    intro h
    have hx : sortAsc (x :: xs) = insertSorted x (sortAsc xs) := rfl
    rw [hx, ih (List.Chain'.tail h)]
    cases xs with
    | nil => rfl
    | cons y ys =>
      have hxy : x < y := (List.chain'_cons.mp h).1
      simp [insertSorted, le_of_lt hxy]

lemma filter_date_of_nodup : ∀ (factor : List TRow) (t : Nat),
    (factor.map (fun r => r.date)).Nodup →
    factor.filter (fun r => decide (r.date = t))
      = (match factor.find? (fun r => decide (r.date = t)) with
          | some r => [r]
          | none => []) := by
  intro factor
  induction factor with
  | nil => intro t _; rfl
  | cons a fs ih =>
    intro t hnd
    rcases List.nodup_cons.mp hnd with ⟨hna, hnd'⟩
    by_cases ha : a.date = t
    · have hfs : fs.filter (fun r => decide (r.date = t)) = [] := by
        refine List.filter_eq_nil_iff.mpr ?_
        intro r hr
        simp only [decide_eq_true_eq]
        intro hrt
        exact hna (List.mem_map.mpr ⟨r, hr, hrt.trans ha.symm⟩)
      rw [List.filter_cons, List.find?_cons]
      simp [ha, hfs]
    · rw [List.filter_cons, List.find?_cons]
      have hd : decide (a.date = t) = false := by simp [ha]
      rw [hd]
      simpa using ih t hnd'

lemma find?_date_self : ∀ (factor : List TRow) (r : TRow),
    (factor.map (fun x => x.date)).Nodup → r ∈ factor →
    factor.find? (fun x => decide (x.date = r.date)) = some r := by
  intro factor
  induction factor with
  | nil => intro r _ hr; simp at hr
  | cons a fs ih =>
    intro r hnd hr
    rcases List.nodup_cons.mp hnd with ⟨hna, hnd'⟩
    rcases List.mem_cons.mp hr with rfl | hr'
    · simp [List.find?_cons]
    · have hne : a.date ≠ r.date := by
        intro he
        exact hna (List.mem_map.mpr ⟨r, hr', he.symm⟩)
      rw [List.find?_cons]
      have hd : decide (a.date = r.date) = false := by simp [hne]
      rw [hd]
      exact ih r hnd' hr'

lemma flatMap_singleton_eq_map {α β : Type} (f : α → List β) (g : α → β)
    (h : ∀ x, f x = [g x]) (l : List α) : l.flatMap f = l.map g := by
  induction l with
  | nil => rfl
  | cons a l ih => rw [List.flatMap_cons, List.map_cons, h a, ih]; rfl

lemma fillRow_eq_self : ∀ (vals prev : List (Option ℚ)),
    prev.length = vals.length →
    (∀ j : Nat, vals[j]? = some none → prev[j]? = some none) →
    fillRow vals prev = vals := by
  intro vals
  induction vals with
  | nil => intro prev _ _; simp [fillRow]
  | cons v vs ih =>
    intro prev hlen h
    cases prev with
    | nil => simp at hlen
    | cons p ps =>
      have htail : fillRow vs ps = vs := by
        refine ih ps (by simpa using hlen) ?_
        intro j hj
        have hstep := h (j + 1) (by simpa using hj)
        simpa using hstep
      cases v with
      | some x => simp [fillRow] at htail ⊢; exact htail
      | none =>
        have hp : p = none := by
          have := h 0 (by simp)
          simpa using this
        simp [fillRow, hp] at htail ⊢
        exact htail

lemma ffill_id : ∀ (rows : List TRow) (prev : List (Option ℚ)),
    (∀ r ∈ rows, r.vals.length = prev.length) →
    List.Chain' (fun a b => nullMono a.vals b.vals) rows →
    (∀ a, rows.head? = some a → ∀ j : Nat, a.vals[j]? = some none → prev[j]? = some none) →
    ffillAux prev rows = rows := by
  intro rows
  induction rows with
  | nil => intro prev _ _ _; rfl
  | cons r rs ih =>
    intro prev hlen hchain hhead
    have hfill : fillRow r.vals prev = r.vals :=
      fillRow_eq_self r.vals prev (hlen r (by simp)).symm (hhead r rfl)
    have hstep : ffillAux prev (r :: rs)
        = ⟨r.date, fillRow r.vals prev⟩ :: ffillAux (fillRow r.vals prev) rs := rfl
    rw [hstep, hfill]
    have htail : ffillAux r.vals rs = rs := by
      refine ih r.vals ?_ (List.Chain'.tail hchain) ?_
      · intro x hx
        rw [hlen x (by simp [hx]), ← hlen r (by simp)]
      · intro a ha j hj
        cases rs with
        | nil => simp at ha
        | cons b bs =>
          have hab : b = a := by simpa using ha
          exact (List.chain'_cons.mp hchain).1 j (by rw [hab]; exact hj)
    rw [htail]

lemma foldl_min_le_init : ∀ (ys : List Nat) (y : Nat), ys.foldl min y ≤ y := by
  intro ys
  induction ys with
  | nil => intro y; exact le_refl y
  | cons z zs ih =>
    intro y
    exact le_trans (ih (min y z)) (min_le_left y z)

lemma minList_le_mem : ∀ (l : List Nat) (x : Nat), x ∈ l → minList l ≤ x := by
  intro l
  cases l with
  | nil => intro x hx; simp at hx
  | cons y ys =>
    intro x hx
    unfold minList
    induction ys generalizing y with
    | nil =>
      rcases List.mem_singleton.mp hx with rfl
      simp
    | cons z zs ih =>
      rcases List.mem_cons.mp hx with rfl | hx'
      · exact le_trans (foldl_min_le_init (z :: zs) x) (le_refl x)
      · rcases List.mem_cons.mp hx' with rfl | hx2
        · exact le_trans (foldl_min_le_init zs (min y x)) (min_le_right y x)
        · exact ih (min y z) (List.mem_cons.mpr (Or.inr hx2))

lemma foldl_max_init_le : ∀ (ys : List Nat) (y : Nat), y ≤ ys.foldl max y := by
  intro ys
  induction ys with
  | nil => intro y; exact le_refl y
  | cons z zs ih =>
    intro y
    exact le_trans (le_max_left y z) (ih (max y z))

lemma mem_le_maxList : ∀ (l : List Nat) (x : Nat), x ∈ l → x ≤ maxList l := by
  intro l
  cases l with
  | nil => intro x hx; simp at hx
  | cons y ys =>
    intro x hx
    unfold maxList
    induction ys generalizing y with
    | nil =>
      rcases List.mem_singleton.mp hx with rfl
      simp
    | cons z zs ih =>
      rcases List.mem_cons.mp hx with rfl | hx'
      · exact le_trans (le_refl x) (foldl_max_init_le (z :: zs) x)
      · rcases List.mem_cons.mp hx' with rfl | hx2
        · exact le_trans (le_max_right y x) (foldl_max_init_le zs (max y x))
        · exact ih (max y z) (List.mem_cons.mpr (Or.inr hx2))

lemma merge_branch_eq (nCols : Nat) (factor : List TRow)
    (hnodup : (factor.map (fun r => r.date)).Nodup) (t : Nat) :
    (if (factor.filter (fun r => decide (r.date = t))).isEmpty then
        [(⟨t, List.replicate nCols none⟩ : TRow)]
      else factor.filter (fun r => decide (r.date = t)))
      = [(match factor.find? (fun r => decide (r.date = t)) with
          | some r => r
          | none => (⟨t, List.replicate nCols none⟩ : TRow))] := by
  rw [filter_date_of_nodup factor t hnodup]
  cases factor.find? (fun r => decide (r.date = t)) with
  | none => simp
  | some r => simp

lemma merge_dense (nCols : Nat) (factor : List TRow)
    (hnodup : (factor.map (fun r => r.date)).Nodup) :
    mergeOuterDates nCols (factor.map (fun r => r.date)) factor = factor := by
  unfold mergeOuterDates
  have hright : factor.filter
      (fun r => !((factor.map (fun r => r.date)).any (fun t => decide (r.date = t)))) = [] := by
    refine List.filter_eq_nil_iff.mpr ?_
    intro r hr
    have hany : (factor.map (fun x => x.date)).any (fun t => decide (r.date = t)) = true :=
      List.any_eq_true.mpr ⟨r.date, List.mem_map.mpr ⟨r, hr, rfl⟩, by simp⟩
    simp [hany]
  rw [hright, List.append_nil,
    flatMap_singleton_eq_map _ _ (merge_branch_eq nCols factor hnodup), List.map_map]
  have hid : factor.map ((fun d =>
      match factor.find? (fun r => decide (r.date = d)) with
      | some r => r
      | none => (⟨d, List.replicate nCols none⟩ : TRow)) ∘ (fun r => r.date))
      = factor.map id := by
    refine List.map_congr_left ?_
    intro r hr
    simp only [Function.comp, id]
    rw [find?_date_self factor r hnodup hr]
  rw [hid, List.map_id]

lemma merge_subset (nCols : Nat) (factor : List TRow) (tds : List Nat)
    (hsub : ∀ r ∈ factor, r.date ∈ tds)
    (hnodup : (factor.map (fun r => r.date)).Nodup) :
    mergeOuterDates nCols tds factor
      = tds.map (fun d =>
          match factor.find? (fun r => decide (r.date = d)) with
          | some r => r
          | none => ⟨d, List.replicate nCols none⟩) := by
  unfold mergeOuterDates
  have hright : factor.filter (fun r => !(tds.any (fun t => decide (r.date = t)))) = [] := by
    refine List.filter_eq_nil_iff.mpr ?_
    intro r hr
    have hany : tds.any (fun t => decide (r.date = t)) = true :=
      List.any_eq_true.mpr ⟨r.date, hsub r hr, by simp⟩
    simp [hany]
  rw [hright, List.append_nil]
  exact flatMap_singleton_eq_map _ _ (merge_branch_eq nCols factor hnodup) tds

/-- C4: amended expansion claim.  The concrete boundary example holds
exactly as stated (first conjunct).  The general union–sort–ffill–trim
description holds in the amended form (second conjunct): it is valid
whenever every factor-table date is itself a trading day (with a strictly
increasing trading-day grid and unique factor dates).  When a factor date
is not a trading day, the merge keeps the trading days in order and
appends the factor-only rows at the end before filling, so the frame that
is forward-filled is not the sorted union — see the counterexample. -/
theorem C4_expansion_boundary :
    extend_factor_data 1
        [⟨20240101, [some 100]⟩, ⟨20240110, [some 110]⟩]
        [20240101, 20240102, 20240103, 20240110]
      = [⟨20240101, [some 100]⟩, ⟨20240102, [some 100]⟩,
         ⟨20240103, [some 100]⟩, ⟨20240110, [some 110]⟩]
    ∧ (∀ (nCols : Nat) (factor : List TRow) (tds : List Nat),
        List.Chain' (· < ·) tds →
        (∀ r ∈ factor, r.date ∈ tds) →
        (factor.map (fun r => r.date)).Nodup →
        extend_factor_data nCols factor tds = extend_factor_data_spec nCols factor tds) := by
  constructor
  · simp [extend_factor_data, mergeOuterDates, ffillAux, fillRow, minList, maxList]
  · intro nCols factor tds hs hsub hnd
    have hunion : (factor.map (fun r => r.date)).filter
        (fun d => !(tds.any (fun t => decide (t = d)))) = [] := by
      refine List.filter_eq_nil_iff.mpr ?_
      intro d hd
      rcases List.mem_map.mp hd with ⟨r, hr, rfl⟩
      have hany : tds.any (fun t => decide (t = r.date)) = true :=
        List.any_eq_true.mpr ⟨r.date, hsub r hr, by simp⟩
      simp [hany]
    unfold extend_factor_data extend_factor_data_spec
    rw [hunion, List.append_nil, sortAsc_eq_self tds hs, merge_subset nCols factor tds hsub hnd]

/-- C4 counterexample: with a factor row at 2024-01-05 that is not a
trading day and trading days {2024-01-01, 2024-01-10}, the code's output
is the trading days in order followed by the appended factor row, and the
value on 2024-01-10 stays null; the spec's union–sort–ffill algorithm
instead sorts the union and forward-fills 100 into 2024-01-10.  The two
outputs differ, so the claim's description of `extend_factor_data` is
false in general. -/
theorem C4_counterexample :
    extend_factor_data 1 [⟨20240105, [some 100]⟩] [20240101, 20240110]
      = [⟨20240101, [none]⟩, ⟨20240110, [none]⟩, ⟨20240105, [some 100]⟩]
    ∧ extend_factor_data_spec 1 [⟨20240105, [some 100]⟩] [20240101, 20240110]
      = [⟨20240101, [none]⟩, ⟨20240105, [some 100]⟩, ⟨20240110, [some 100]⟩]
    ∧ ([(⟨20240101, [none]⟩ : TRow), ⟨20240110, [none]⟩, ⟨20240105, [some 100]⟩]
        ≠ [(⟨20240101, [none]⟩ : TRow), ⟨20240105, [some 100]⟩, ⟨20240110, [some 100]⟩]) := by
  refine ⟨?_, ?_, ?_⟩
  · simp [extend_factor_data, mergeOuterDates, ffillAux, fillRow, minList, maxList]
  · simp [extend_factor_data_spec, sortAsc, insertSorted, ffillAux, fillRow, minList, maxList,
      List.find?]
  · intro h
    have h1 := congrArg (fun l => l[1]?) h
    simp at h1

/-- C4 witness: the amended union–sort–ffill equivalence applied to the
claim's own boundary example, whose factor dates are all trading days. -/
theorem C4_witness :
    extend_factor_data 1
        [⟨20240101, [some 100]⟩, ⟨20240110, [some 110]⟩]
        [20240101, 20240102, 20240103, 20240110]
      = extend_factor_data_spec 1
        [⟨20240101, [some 100]⟩, ⟨20240110, [some 110]⟩]
        [20240101, 20240102, 20240103, 20240110] := by
  refine C4_expansion_boundary.2 1
    [⟨20240101, [some 100]⟩, ⟨20240110, [some 110]⟩]
    [20240101, 20240102, 20240103, 20240110]
    (by simp [List.chain'_cons]) ?_ ?_
  · intro r hr
    rcases List.mem_cons.mp hr with rfl | hr2
    · simp
    · rcases List.mem_cons.mp hr2 with rfl | h3
      · simp
      · simp at h3
  · simp

/-- C9: idempotence of expansion.  A table that is already dense over the
trading-day grid — exactly one row per trading day, in grid order, with
`nCols` instrument columns whose nulls only occur as leading prefixes
(column-wise null-monotone between consecutive rows) — is returned
unchanged by `extend_factor_data` over the same grid. -/
theorem C9_expansion_idempotent (nCols : Nat) (factor : List TRow) (tradingDays : List Nat)
    (hdates : factor.map (fun r => r.date) = tradingDays)
    (hnodup : tradingDays.Nodup)
    (hcols : ∀ r ∈ factor, r.vals.length = nCols)
    (hpref : List.Chain' (fun a b => nullMono a.vals b.vals) factor) :
    extend_factor_data nCols factor tradingDays = factor := by
  subst hdates
  unfold extend_factor_data
  rw [merge_dense nCols factor hnodup]
  rw [ffill_id factor (List.replicate nCols none)
    (fun r hr => by rw [hcols r hr, List.length_replicate]) hpref ?hd]
  case hd =>
    intro a ha j hj
    have hmem : a ∈ factor := by
      cases factor with
      | nil => simp at ha
      | cons x xs =>
        have : x = a := by simpa using ha
        exact this ▸ List.mem_cons_self x xs
    have hjlt : j < nCols := by
      rcases List.getElem?_eq_some.mp hj with ⟨hlt, _⟩
      rw [hcols a hmem] at hlt
      exact hlt
    rw [List.getElem?_replicate, if_pos hjlt]
  refine List.filter_eq_self.mpr ?_
  intro r hr
  have hmem : r.date ∈ factor.map (fun x => x.date) := List.mem_map.mpr ⟨r, hr, rfl⟩
  simp [minList_le_mem _ _ hmem, mem_le_maxList _ _ hmem]

/-- C9 witness: a concrete dense two-day table (one leading null) is a
fixed point of the expansion. -/
theorem C9_witness :
    extend_factor_data 1 [⟨1, [none]⟩, ⟨2, [some 5]⟩] [1, 2]
      = [⟨1, [none]⟩, ⟨2, [some 5]⟩] := by
  refine C9_expansion_idempotent 1 [⟨1, [none]⟩, ⟨2, [some 5]⟩] [1, 2] (by simp) (by decide)
    ?_ ?_
  · intro r hr
    rcases List.mem_cons.mp hr with rfl | hr2
    · rfl
    · rcases List.mem_cons.mp hr2 with rfl | h3
      · rfl
      · simp at h3
  · refine List.chain'_cons.mpr ⟨?_, List.chain'_singleton _⟩
    intro j hj
    cases j with
    | zero => simp at hj
    | succ j => simp at hj

/-! ### Quarter-label and date-string functions (`List Char` models of
Python strings) -/

/-- The numeric value of an ASCII digit character, `none` otherwise. -/
def digitVal? (c : Char) : Option Nat :=
  if '0' ≤ c ∧ c ≤ '9' then some (c.toNat - 48) else none

/-- Python `str(n)` for a natural number: decimal digits, most
significant first. -/
def natToChars (n : Nat) : List Char :=
  if n = 0 then ['0'] else (Nat.digits 10 n).reverse.map (fun d => Nat.digitChar d)

/-- Python `str(i)` for an integer. -/
def intToChars (i : Int) : List Char :=
  if i < 0 then '-' :: natToChars i.natAbs else natToChars i.toNat

/-- The digits-only parse used by `strptime` field matching. -/
def charsToNat? (s : List Char) : Option Nat :=
  if s ≠ [] ∧ s.all (fun c => (digitVal? c).isSome) then
    some (s.foldl (fun a c => a * 10 + (c.toNat - 48)) 0)
  else none

/-- Python `str.split(sep)` for a single-character separator. -/
def splitOnChar (c : Char) : List Char → List (List Char)
  | [] => [[]]
  | x :: xs =>
    if x = c then [] :: splitOnChar c xs
    else
      match splitOnChar c xs with
      | [] => [[x]]
      | h :: t => (x :: h) :: t

/-- The whitespace characters Python `int()` strips. -/
def isPyWS (c : Char) : Bool :=
  c = ' ' || c = '\t' || c = '\n' || c = '\r' || c = '\x0b' || c = '\x0c'

/-- Digit groups possibly separated by single underscores, continuing an
already-started number (Python int literal tail). -/
def pyDigitsCore : List Char → Nat → Option Nat
  | [], acc => some acc
  | [c], acc =>
    if (digitVal? c).isSome then some (acc * 10 + (c.toNat - 48)) else none
  | c :: c2 :: cs2, acc =>
    if (digitVal? c).isSome then pyDigitsCore (c2 :: cs2) (acc * 10 + (c.toNat - 48))
    else if c = '_' ∧ (digitVal? c2).isSome then pyDigitsCore cs2 (acc * 10 + (c2.toNat - 48))
    else none

/-- A nonempty digit sequence (with optional internal underscores). -/
def pyDigits? : List Char → Option Nat
  | [] => none
  | c :: cs =>
    if (digitVal? c).isSome then pyDigitsCore cs (c.toNat - 48) else none

/-- Strip the surrounding whitespace tolerated by Python `int()`. -/
def stripWS (s : List Char) : List Char :=
  ((s.dropWhile isPyWS).reverse.dropWhile isPyWS).reverse

/-- Python `int(s)` (ASCII model): optional surrounding whitespace,
optional sign, digits with single underscores between them. -/
def pyInt (s : List Char) : Option Int :=
  match stripWS s with
  | [] => none
  | c :: cs =>
    if c = '+' then (pyDigits? cs).map (fun n => (n : Int))
    else if c = '-' then (pyDigits? cs).map (fun n => -(n : Int))
    else (pyDigits? (c :: cs)).map (fun n => (n : Int))

/-- `FinLabFactorFetcher.convert_quarter_to_dates`:
`year, qtr = quarter.split("-")` (a non-2-way split raises ValueError),
then the four disclosure windows; Q3/Q4 need `int(year)`, whose failure
also raises ValueError; an unknown quarter token raises ValueError.
Note the year string is never validated for Q1/Q2: it is interpolated
verbatim into the returned dates. -/
def convert_quarter_to_dates (quarter : List Char) : Except String (List Char × List Char) :=
  match splitOnChar '-' quarter with
  | [year, qtr] =>
    if qtr = ['Q', '1'] then
      .ok (year ++ ['-', '0', '5', '-', '1', '6'], year ++ ['-', '0', '8', '-', '1', '4'])
    else if qtr = ['Q', '2'] then
      .ok (year ++ ['-', '0', '8', '-', '1', '5'], year ++ ['-', '1', '1', '-', '1', '4'])
    else if qtr = ['Q', '3'] then
      match pyInt year with
      | some n =>
        .ok (year ++ ['-', '1', '1', '-', '1', '5'],
             intToChars (n + 1) ++ ['-', '0', '3', '-', '3', '1'])
      | none => .error "ValueError: invalid literal for int"
    else if qtr = ['Q', '4'] then
      match pyInt year with
      | some n =>
        .ok (intToChars (n + 1) ++ ['-', '0', '4', '-', '0', '1'],
             intToChars (n + 1) ++ ['-', '0', '5', '-', '1', '5'])
      | none => .error "ValueError: invalid literal for int"
    else .error "ValueError: Invalid quarter"
  | _ => .error "ValueError: unpacking"

/-- Gregorian leap-year rule (as `datetime.date` uses). -/
def isLeap (y : Nat) : Bool :=
  y % 4 = 0 && (y % 100 ≠ 0 || y % 400 = 0)

/-- Length of a month, for `datetime.date`'s day-range check. -/
def daysInMonth (y m : Nat) : Nat :=
  if m = 2 then (if isLeap y then 29 else 28)
  else if m = 4 ∨ m = 6 ∨ m = 9 ∨ m = 11 then 30
  else 31

/-- CPython's `%Y` field: exactly four digits. -/
def yearField? (s : List Char) : Option Nat :=
  if s.length = 4 then charsToNat? s else none

/-- CPython's `%m` field: one or two digits with value 1..12. -/
def monthField? (s : List Char) : Option Nat :=
  match charsToNat? s with
  | some m => if 1 ≤ m ∧ m ≤ 12 ∧ s.length ≤ 2 then some m else none
  | none => none

/-- CPython's `%d` field: one or two digits with value 1..31, or a
space-padded single digit 1..9. -/
def dayField? : List Char → Option Nat
  | [a] =>
    match digitVal? a with
    | some d => if 1 ≤ d then some d else none
    | none => none
  | [a, b] =>
    if a = ' ' then
      match digitVal? b with
      | some d => if 1 ≤ d then some d else none
      | none => none
    else
      match digitVal? a, digitVal? b with
      | some d1, some d2 =>
        if 1 ≤ d1 * 10 + d2 ∧ d1 * 10 + d2 ≤ 31 then some (d1 * 10 + d2) else none
      | _, _ => none
  | _ => none

/-- `datetime.strptime(s, "%Y-%m-%d").date()`: the three fields separated
by literal dashes, the whole string consumed, then `datetime.date`'s
range checks (year ≥ 1, day within the month's length). -/
def strptimeYMD (s : List Char) : Option (Nat × Nat × Nat) :=
  match splitOnChar '-' s with
  | [ys, ms, ds] =>
    match yearField? ys, monthField? ms, dayField? ds with
    | some y, some m, some d =>
      if 1 ≤ y ∧ d ≤ daysInMonth y m then some (y, m, d) else none
    | _, _, _ => none
  | _ => none

/-- Branch 1 of `convert_date_to_quarter`: 5/16 … 8/14. -/
abbrev q1Cond (m d : Nat) : Prop := (m = 5 ∧ 16 ≤ d) ∨ m = 6 ∨ m = 7 ∨ (m = 8 ∧ d ≤ 14)

/-- Branch 2: 8/15 … 11/14. -/
abbrev q2Cond (m d : Nat) : Prop := (m = 8 ∧ 15 ≤ d) ∨ m = 9 ∨ m = 10 ∨ (m = 11 ∧ d ≤ 14)

/-- Branch 3: 11/15 … 12/31 (same year's Q3 label). -/
abbrev q3Cond (m d : Nat) : Prop := (m = 11 ∧ 15 ≤ d) ∨ m = 12

/-- Branch 4: 1/1 … 3/31 (previous year's Q3 label). -/
abbrev q4Cond (m d : Nat) : Prop := m = 1 ∨ m = 2 ∨ (m = 3 ∧ d ≤ 31)

/-- Branch 5: 4/1 … 5/15 (previous year's Q4 label). -/
abbrev q5Cond (m d : Nat) : Prop := m = 4 ∨ (m = 5 ∧ d ≤ 15)

/-- The quarter label f"{y}-Q{q}". -/
def quarterLabel (y q : Nat) : List Char := natToChars y ++ ['-', 'Q'] ++ natToChars q

/-- `FinLabFactorFetcher.convert_date_to_quarter`: parse with
`strptime("%Y-%m-%d")` (raising ValueError on failure), then walk the
branch chain on (month, day); the final `return f"{y}-Q1"` is the
fall-through of the Python code. -/
def convert_date_to_quarter (date : List Char) : Except String (List Char) :=
  match strptimeYMD date with
  | none => .error "ValueError: time data does not match format"
  | some (y, m, d) =>
    if q1Cond m d then .ok (quarterLabel y 1)
    else if q2Cond m d then .ok (quarterLabel y 2)
    else if q3Cond m d then .ok (quarterLabel y 3)
    else if q4Cond m d then .ok (quarterLabel (y - 1) 3)
    else if q5Cond m d then .ok (quarterLabel (y - 1) 4)
    else .ok (quarterLabel y 1)

/-! ### Decimal-string lemmas -/

lemma digitChar_facts (d : Nat) (h : d < 10) :
    ('0' ≤ Nat.digitChar d ∧ Nat.digitChar d ≤ '9')
    ∧ (Nat.digitChar d).toNat - 48 = d
    ∧ Nat.digitChar d ≠ '-'
    ∧ Nat.digitChar d ≠ '+'
    ∧ isPyWS (Nat.digitChar d) = false := by
  interval_cases d <;> exact (by decide)

lemma natToChars_mem (n : Nat) : ∀ c ∈ natToChars n, ∃ d, d < 10 ∧ c = Nat.digitChar d := by
  unfold natToChars
  by_cases h : n = 0
  · rw [if_pos h]
    intro c hc
    rcases List.mem_singleton.mp hc with rfl
    exact ⟨0, by norm_num, rfl⟩
  · rw [if_neg h]
    intro c hc
    rcases List.mem_map.mp hc with ⟨d, hd, rfl⟩
    exact ⟨d, Nat.digits_lt_base (by norm_num) (List.mem_reverse.mp hd), rfl⟩

lemma natToChars_ne_nil (n : Nat) : natToChars n ≠ [] := by
  unfold natToChars
  by_cases h : n = 0
  · rw [if_pos h]
    simp
  · rw [if_neg h]
    simp [Nat.digits_ne_nil_iff_ne_zero.mpr h]

lemma natToChars_no_dash (n : Nat) : '-' ∉ natToChars n := by
  intro hmem
  rcases natToChars_mem n _ hmem with ⟨d, hd, he⟩
  exact (digitChar_facts d hd).2.2.1 he.symm

lemma natToChars_foldl (n : Nat) :
    (natToChars n).foldl (fun a c => a * 10 + (c.toNat - 48)) 0 = n := by
  unfold natToChars
  by_cases h : n = 0
  · rw [if_pos h, h]
    decide
  · rw [if_neg h, List.foldl_map, List.foldl_reverse]
    have hfold : ∀ (l : List Nat), (∀ d ∈ l, d < 10) →
        (l.foldr (fun x y => (fun a c => a * 10 + (c.toNat - 48)) y (Nat.digitChar x)) 0)
          = Nat.ofDigits 10 l := by
      intro l
      induction l with
      | nil => intro _; simp [Nat.ofDigits]
      | cons d ds ih =>
        intro hall
        rw [List.foldr_cons, ih (fun x hx => hall x (by simp [hx])), Nat.ofDigits_cons]
        have hd10 : (Nat.digitChar d).toNat - 48 = d := (digitChar_facts d (hall d (by simp))).2.1
        simp only [hd10]
        have hcast : Nat.ofDigits 10 ds * 10 + d = d + 10 * Nat.ofDigits 10 ds := by ring
        exact_mod_cast hcast
    rw [hfold (Nat.digits 10 n) (fun d hd => Nat.digits_lt_base (by norm_num) hd)]
    exact_mod_cast Nat.ofDigits_digits 10 n

lemma natToChars_all_digitVal (n : Nat) :
    ∀ c ∈ natToChars n, (digitVal? c).isSome = true := by
  intro c hc
  rcases natToChars_mem n c hc with ⟨d, hd, rfl⟩
  unfold digitVal?
  rw [if_pos (digitChar_facts d hd).1]
  rfl

lemma charsToNat_natToChars (n : Nat) : charsToNat? (natToChars n) = some n := by
  unfold charsToNat?
  rw [if_pos ⟨natToChars_ne_nil n, List.all_eq_true.mpr (natToChars_all_digitVal n)⟩,
    natToChars_foldl]

lemma natToChars_len4 (y : Nat) (h1 : 1000 ≤ y) (h2 : y ≤ 9999) :
    (natToChars y).length = 4 := by
  unfold natToChars
  rw [if_neg (by omega), List.length_map, List.length_reverse,
    Nat.digits_len 10 y (by norm_num) (by omega)]
  have hlog : Nat.log 10 y = 3 :=
    Nat.log_eq_of_pow_le_of_lt_pow (by norm_num; omega) (by norm_num; omega)
  omega

lemma yearField_natToChars (y : Nat) (h1 : 1000 ≤ y) (h2 : y ≤ 9999) :
    yearField? (natToChars y) = some y := by
  unfold yearField?
  rw [if_pos (natToChars_len4 y h1 h2), charsToNat_natToChars]

lemma splitOnChar_not_mem (c : Char) : ∀ (a : List Char), c ∉ a → splitOnChar c a = [a] := by
  intro a
  induction a with
  | nil => intro _; rfl
  | cons x xs ih =>
    intro h
    have hx : ¬ x = c := fun he => h (he ▸ List.mem_cons_self x xs)
    simp only [splitOnChar]
    rw [if_neg hx, ih (fun hm => h (List.mem_cons_of_mem x hm))]

lemma splitOnChar_append (c : Char) : ∀ (a b : List Char), c ∉ a →
    splitOnChar c (a ++ c :: b) = a :: splitOnChar c b := by
  intro a
  induction a with
  | nil =>
    intro b _
    show splitOnChar c (c :: b) = [] :: splitOnChar c b
    simp [splitOnChar]
  | cons x xs ih =>
    intro b h
    have hx : ¬ x = c := fun he => h (he ▸ List.mem_cons_self x xs)
    show splitOnChar c (x :: (xs ++ c :: b)) = (x :: xs) :: splitOnChar c b
    simp only [splitOnChar]
    rw [if_neg hx, ih b (fun hm => h (List.mem_cons_of_mem x hm))]

lemma stripWS_eq_self (s : List Char) (h : ∀ c ∈ s, isPyWS c = false) : stripWS s = s := by
  unfold stripWS
  have h1 : s.dropWhile isPyWS = s := by
    cases s with
    | nil => rfl
    | cons a t => rw [List.dropWhile_cons, h a (by simp)]; simp
  rw [h1]
  have h2 : s.reverse.dropWhile isPyWS = s.reverse := by
    cases hs : s.reverse with
    | nil => rfl
    | cons a t =>
      have ha : a ∈ s := by
        rw [← List.mem_reverse, hs]
        simp
      rw [List.dropWhile_cons, h a ha]
      simp
  rw [h2, List.reverse_reverse]

lemma digitVal_eq_of_isSome (c : Char) (h : (digitVal? c).isSome = true) :
    digitVal? c = some (c.toNat - 48) := by
  unfold digitVal? at h ⊢
  by_cases hc : '0' ≤ c ∧ c ≤ '9'
  · rw [if_pos hc]
  · rw [if_neg hc] at h
    simp at h

lemma pyDigitsCore_all : ∀ (l : List Char) (acc : Nat),
    (∀ c ∈ l, (digitVal? c).isSome = true) →
    pyDigitsCore l acc = some (l.foldl (fun a c => a * 10 + (c.toNat - 48)) acc) := by
  intro l
  induction l with
  | nil => intro acc _; rfl
  | cons c cs ih =>
    intro acc hall
    have hval : (digitVal? c).isSome = true := hall c (by simp)
    have hstep : pyDigitsCore (c :: cs) acc
        = pyDigitsCore cs (acc * 10 + (c.toNat - 48)) := by
      cases cs with
      | nil => simp [pyDigitsCore, hval]
      | cons c2 cs2 => simp [pyDigitsCore, hval]
    rw [hstep, ih _ (fun x hx => hall x (by simp [hx])), List.foldl_cons]

lemma pyInt_natToChars (n : Nat) : pyInt (natToChars n) = some (n : Int) := by
  unfold pyInt
  rw [stripWS_eq_self _ (fun c hc => by
    rcases natToChars_mem n c hc with ⟨d, hd, rfl⟩
    exact (digitChar_facts d hd).2.2.2.2)]
  cases hnc : natToChars n with
  | nil => exact absurd hnc (natToChars_ne_nil n)
  | cons c cs =>
    have hcd : ∃ d, d < 10 ∧ c = Nat.digitChar d :=
      natToChars_mem n c (by rw [hnc]; simp)
    rcases hcd with ⟨d, hd, rfl⟩
    show (if Nat.digitChar d = '+' then (pyDigits? cs).map (fun k => (k : Int))
      else if Nat.digitChar d = '-' then (pyDigits? cs).map (fun k => -(k : Int))
      else (pyDigits? (Nat.digitChar d :: cs)).map (fun k => (k : Int))) = some (n : Int)
    rw [if_neg (digitChar_facts d hd).2.2.2.1, if_neg (digitChar_facts d hd).2.2.1]
    have hval : (digitVal? (Nat.digitChar d)).isSome = true := by
      unfold digitVal?
      rw [if_pos (digitChar_facts d hd).1]
      rfl
    have hstep : pyDigits? (Nat.digitChar d :: cs)
        = pyDigitsCore cs ((Nat.digitChar d).toNat - 48) := by
      show (if (digitVal? (Nat.digitChar d)).isSome = true
            then pyDigitsCore cs ((Nat.digitChar d).toNat - 48) else none)
          = pyDigitsCore cs ((Nat.digitChar d).toNat - 48)
      rw [if_pos hval]
    rw [hstep, pyDigitsCore_all cs _ (fun x hx => by
      have : x ∈ natToChars n := by rw [hnc]; simp [hx]
      exact natToChars_all_digitVal n x this)]
    have hfold : cs.foldl (fun a c => a * 10 + (c.toNat - 48)) ((Nat.digitChar d).toNat - 48)
        = n := by
      have h0 := natToChars_foldl n
      rw [hnc, List.foldl_cons] at h0
      simpa using h0
    rw [hfold]
    rfl

lemma intToChars_add_one (y : Nat) : intToChars ((y : Int) + 1) = natToChars (y + 1) := by
  unfold intToChars
  rw [if_neg (by omega)]
  have : ((y : Int) + 1).toNat = y + 1 := by omega
  rw [this]

lemma natToChars_digit (q : Nat) (h1 : 1 ≤ q) (h2 : q ≤ 9) :
    natToChars q = [Nat.digitChar q] := by
  unfold natToChars
  rw [if_neg (by omega), Nat.digits_def' (by norm_num : (1:Nat) < 10) (by omega),
    Nat.mod_eq_of_lt (by omega), Nat.div_eq_of_lt (by omega)]
  simp

lemma strptime_4digit (y m d : Nat) (ms ds : List Char)
    (hy : 1000 ≤ y) (hy2 : y ≤ 9999)
    (hnm : '-' ∉ ms) (hnd : '-' ∉ ds)
    (hms : monthField? ms = some m) (hds : dayField? ds = some d)
    (hcal : 1 ≤ y ∧ d ≤ daysInMonth y m) :
    strptimeYMD (natToChars y ++ '-' :: (ms ++ '-' :: ds)) = some (y, m, d) := by
  unfold strptimeYMD
  rw [splitOnChar_append '-' (natToChars y) _ (natToChars_no_dash y),
    splitOnChar_append '-' ms _ hnm, splitOnChar_not_mem '-' ds hnd]
  show (match yearField? (natToChars y), monthField? ms, dayField? ds with
    | some yy, some mm, some dd =>
      if 1 ≤ yy ∧ dd ≤ daysInMonth yy mm then some (yy, mm, dd) else none
    | _, _, _ => none) = some (y, m, d)
  rw [yearField_natToChars y hy hy2, hms, hds]
  show (if 1 ≤ y ∧ d ≤ daysInMonth y m then some (y, m, d) else none) = some (y, m, d)
  rw [if_pos hcal]

lemma cdq_eval (s : List Char) (y m d : Nat) (hs : strptimeYMD s = some (y, m, d)) :
    convert_date_to_quarter s
      = (if q1Cond m d then .ok (quarterLabel y 1)
         else if q2Cond m d then .ok (quarterLabel y 2)
         else if q3Cond m d then .ok (quarterLabel y 3)
         else if q4Cond m d then .ok (quarterLabel (y - 1) 3)
         else if q5Cond m d then .ok (quarterLabel (y - 1) 4)
         else .ok (quarterLabel y 1)) := by
  unfold convert_date_to_quarter
  rw [hs]

lemma cdq_err (s : List Char) (hs : strptimeYMD s = none) :
    convert_date_to_quarter s = .error "ValueError: time data does not match format" := by
  unfold convert_date_to_quarter
  rw [hs]

lemma cqd_eval (label ys qs : List Char) (hsplit : splitOnChar '-' label = [ys, qs]) :
    convert_quarter_to_dates label
      = (if qs = ['Q', '1'] then
          .ok (ys ++ ['-', '0', '5', '-', '1', '6'], ys ++ ['-', '0', '8', '-', '1', '4'])
        else if qs = ['Q', '2'] then
          .ok (ys ++ ['-', '0', '8', '-', '1', '5'], ys ++ ['-', '1', '1', '-', '1', '4'])
        else if qs = ['Q', '3'] then
          match pyInt ys with
          | some n =>
            .ok (ys ++ ['-', '1', '1', '-', '1', '5'],
                 intToChars (n + 1) ++ ['-', '0', '3', '-', '3', '1'])
          | none => .error "ValueError: invalid literal for int"
        else if qs = ['Q', '4'] then
          match pyInt ys with
          | some n =>
            .ok (intToChars (n + 1) ++ ['-', '0', '4', '-', '0', '1'],
                 intToChars (n + 1) ++ ['-', '0', '5', '-', '1', '5'])
          | none => .error "ValueError: invalid literal for int"
        else .error "ValueError: Invalid quarter") := by
  unfold convert_quarter_to_dates
  rw [hsplit]

lemma splitLabel (y q : Nat) :
    splitOnChar '-' (quarterLabel y q) = [natToChars y, 'Q' :: natToChars q] := by
  unfold quarterLabel
  have hassoc : natToChars y ++ ['-', 'Q'] ++ natToChars q
      = natToChars y ++ '-' :: ('Q' :: natToChars q) := by
    rw [List.append_assoc]
    rfl
  rw [hassoc, splitOnChar_append '-' (natToChars y) _ (natToChars_no_dash y),
    splitOnChar_not_mem '-' ('Q' :: natToChars q) ?nodash]
  case nodash =>
    intro hmem
    rcases List.mem_cons.mp hmem with he | hmem2
    · exact absurd he (by decide)
    · exact natToChars_no_dash q hmem2

lemma cdq_date (yy m d : Nat) (ms ds : List Char)
    (hy : 1000 ≤ yy) (hy2 : yy ≤ 9999)
    (hnm : '-' ∉ ms) (hnd : '-' ∉ ds)
    (hms : monthField? ms = some m) (hds : dayField? ds = some d)
    (hcal : 1 ≤ yy ∧ d ≤ daysInMonth yy m) :
    convert_date_to_quarter (natToChars yy ++ '-' :: (ms ++ '-' :: ds))
      = (if q1Cond m d then .ok (quarterLabel yy 1)
         else if q2Cond m d then .ok (quarterLabel yy 2)
         else if q3Cond m d then .ok (quarterLabel yy 3)
         else if q4Cond m d then .ok (quarterLabel (yy - 1) 3)
         else if q5Cond m d then .ok (quarterLabel (yy - 1) 4)
         else .ok (quarterLabel yy 1)) :=
  cdq_eval _ yy m d (strptime_4digit yy m d ms ds hy hy2 hnm hnd hms hds hcal)

/-- C5: amended quarter round trip.  For every 4-digit year y and quarter
q, except 9999-Q3 and 9999-Q4, both window boundary dates map back to the
original label.  (For year 9999, Q3's end date and both Q4 dates fall in
calendar year 10000, which `strptime("%Y-%m-%d")` rejects — see the
counterexample.) -/
theorem C5_quarter_round_trip (y q : Nat)
    (hy : 1000 ≤ y) (hy2 : y ≤ 9999) (hq1 : 1 ≤ q) (hq4 : q ≤ 4)
    (hnot : q = 1 ∨ q = 2 ∨ y ≤ 9998) :
    ∃ s e, convert_quarter_to_dates (quarterLabel y q) = .ok (s, e)
      ∧ convert_date_to_quarter s = .ok (quarterLabel y q)
      ∧ convert_date_to_quarter e = .ok (quarterLabel y q) := by
  interval_cases q
  · -- Q1
    refine ⟨natToChars y ++ ['-', '0', '5', '-', '1', '6'],
      natToChars y ++ ['-', '0', '8', '-', '1', '4'], ?_, ?_, ?_⟩
    · rw [cqd_eval _ _ _ (splitLabel y 1), natToChars_digit 1 (by norm_num) (by norm_num),
        if_pos (by decide)]
    · have h := cdq_date y 5 16 ['0', '5'] ['1', '6'] hy hy2 (by decide) (by decide)
        (by decide) (by decide) ⟨by omega, by show (16:Nat) ≤ 31; norm_num⟩
      rw [if_pos (show q1Cond 5 16 by decide)] at h
      exact h
    · have h := cdq_date y 8 14 ['0', '8'] ['1', '4'] hy hy2 (by decide) (by decide)
        (by decide) (by decide) ⟨by omega, by show (14:Nat) ≤ 31; norm_num⟩
      rw [if_pos (show q1Cond 8 14 by decide)] at h
      exact h
  · -- Q2
    refine ⟨natToChars y ++ ['-', '0', '8', '-', '1', '5'],
      natToChars y ++ ['-', '1', '1', '-', '1', '4'], ?_, ?_, ?_⟩
    · rw [cqd_eval _ _ _ (splitLabel y 2), natToChars_digit 2 (by norm_num) (by norm_num),
        if_neg (by decide), if_pos (by decide)]
    · have h := cdq_date y 8 15 ['0', '8'] ['1', '5'] hy hy2 (by decide) (by decide)
        (by decide) (by decide) ⟨by omega, by show (15:Nat) ≤ 31; norm_num⟩
      rw [if_neg (show ¬ q1Cond 8 15 by decide), if_pos (show q2Cond 8 15 by decide)] at h
      exact h
    · have h := cdq_date y 11 14 ['1', '1'] ['1', '4'] hy hy2 (by decide) (by decide)
        (by decide) (by decide) ⟨by omega, by show (14:Nat) ≤ 30; norm_num⟩
      rw [if_neg (show ¬ q1Cond 11 14 by decide), if_pos (show q2Cond 11 14 by decide)] at h
      exact h
  · -- Q3
    have hy3 : y ≤ 9998 := by
      rcases hnot with h | h | h
      · omega
      · omega
      · exact h
    refine ⟨natToChars y ++ ['-', '1', '1', '-', '1', '5'],
      natToChars (y + 1) ++ ['-', '0', '3', '-', '3', '1'], ?_, ?_, ?_⟩
    · rw [cqd_eval _ _ _ (splitLabel y 3), natToChars_digit 3 (by norm_num) (by norm_num),
        if_neg (by decide), if_neg (by decide), if_pos (by decide), pyInt_natToChars y]
      show Except.ok (natToChars y ++ ['-', '1', '1', '-', '1', '5'],
          intToChars ((y : Int) + 1) ++ ['-', '0', '3', '-', '3', '1'])
        = Except.ok (natToChars y ++ ['-', '1', '1', '-', '1', '5'],
          natToChars (y + 1) ++ ['-', '0', '3', '-', '3', '1'])
      rw [intToChars_add_one y]
    · have h := cdq_date y 11 15 ['1', '1'] ['1', '5'] hy hy2 (by decide) (by decide)
        (by decide) (by decide) ⟨by omega, by show (15:Nat) ≤ 30; norm_num⟩
      rw [if_neg (show ¬ q1Cond 11 15 by decide), if_neg (show ¬ q2Cond 11 15 by decide),
        if_pos (show q3Cond 11 15 by decide)] at h
      exact h
    · have h := cdq_date (y + 1) 3 31 ['0', '3'] ['3', '1'] (by omega) (by omega)
        (by decide) (by decide) (by decide) (by decide)
        ⟨by omega, by show (31:Nat) ≤ 31; norm_num⟩
      rw [if_neg (show ¬ q1Cond 3 31 by decide), if_neg (show ¬ q2Cond 3 31 by decide),
        if_neg (show ¬ q3Cond 3 31 by decide), if_pos (show q4Cond 3 31 by decide)] at h
      rw [Nat.add_sub_cancel] at h
      exact h
  · -- Q4
    have hy3 : y ≤ 9998 := by
      rcases hnot with h | h | h
      · omega
      · omega
      · exact h
    refine ⟨natToChars (y + 1) ++ ['-', '0', '4', '-', '0', '1'],
      natToChars (y + 1) ++ ['-', '0', '5', '-', '1', '5'], ?_, ?_, ?_⟩
    · rw [cqd_eval _ _ _ (splitLabel y 4), natToChars_digit 4 (by norm_num) (by norm_num),
        if_neg (by decide), if_neg (by decide), if_neg (by decide), if_pos (by decide),
        pyInt_natToChars y]
      show Except.ok (intToChars ((y : Int) + 1) ++ ['-', '0', '4', '-', '0', '1'],
          intToChars ((y : Int) + 1) ++ ['-', '0', '5', '-', '1', '5'])
        = Except.ok (natToChars (y + 1) ++ ['-', '0', '4', '-', '0', '1'],
          natToChars (y + 1) ++ ['-', '0', '5', '-', '1', '5'])
      rw [intToChars_add_one y]
    · have h := cdq_date (y + 1) 4 1 ['0', '4'] ['0', '1'] (by omega) (by omega)
        (by decide) (by decide) (by decide) (by decide)
        ⟨by omega, by show (1:Nat) ≤ 30; norm_num⟩
      rw [if_neg (show ¬ q1Cond 4 1 by decide), if_neg (show ¬ q2Cond 4 1 by decide),
        if_neg (show ¬ q3Cond 4 1 by decide), if_neg (show ¬ q4Cond 4 1 by decide),
        if_pos (show q5Cond 4 1 by decide)] at h
      rw [Nat.add_sub_cancel] at h
      exact h
    · have h := cdq_date (y + 1) 5 15 ['0', '5'] ['1', '5'] (by omega) (by omega)
        (by decide) (by decide) (by decide) (by decide)
        ⟨by omega, by show (15:Nat) ≤ 31; norm_num⟩
      rw [if_neg (show ¬ q1Cond 5 15 by decide), if_neg (show ¬ q2Cond 5 15 by decide),
        if_neg (show ¬ q3Cond 5 15 by decide), if_neg (show ¬ q4Cond 5 15 by decide),
        if_pos (show q5Cond 5 15 by decide)] at h
      rw [Nat.add_sub_cancel] at h
      exact h

lemma natToChars_len5 : (natToChars 10000).length = 5 := by
  unfold natToChars
  rw [if_neg (by omega), List.length_map, List.length_reverse,
    Nat.digits_len 10 10000 (by norm_num) (by omega)]
  have hlog : Nat.log 10 10000 = 4 :=
    Nat.log_eq_of_pow_le_of_lt_pow (by norm_num) (by norm_num)
  omega

lemma strptime_badyear (ys ms ds : List Char) (hlen : ¬ ys.length = 4)
    (hys : '-' ∉ ys) (hnm : '-' ∉ ms) (hnd : '-' ∉ ds) :
    strptimeYMD (ys ++ '-' :: (ms ++ '-' :: ds)) = none := by
  unfold strptimeYMD
  rw [splitOnChar_append '-' ys _ hys, splitOnChar_append '-' ms _ hnm,
    splitOnChar_not_mem '-' ds hnd]
  show (match yearField? ys, monthField? ms, dayField? ds with
    | some yy, some mm, some dd =>
      if 1 ≤ yy ∧ dd ≤ daysInMonth yy mm then some (yy, mm, dd) else none
    | _, _, _ => none) = none
  have hyear : yearField? ys = none := by
    unfold yearField?
    rw [if_neg hlen]
  rw [hyear]

/-- C5 counterexample: for the valid 4-digit label 9999-Q3, the window's
end date falls in calendar year 10000; `strptime("%Y-%m-%d")` (%Y is four
digits, and `datetime` years are capped at 9999) rejects it, so
`convert_date_to_quarter` raises instead of returning the label. -/
theorem C5_counterexample :
    convert_quarter_to_dates (quarterLabel 9999 3)
      = .ok (natToChars 9999 ++ ['-', '1', '1', '-', '1', '5'],
             natToChars 10000 ++ ['-', '0', '3', '-', '3', '1'])
    ∧ convert_date_to_quarter (natToChars 10000 ++ ['-', '0', '3', '-', '3', '1'])
      = .error "ValueError: time data does not match format" := by
  constructor
  · rw [cqd_eval _ _ _ (splitLabel 9999 3), natToChars_digit 3 (by norm_num) (by norm_num),
      if_neg (by decide), if_neg (by decide), if_pos (by decide), pyInt_natToChars 9999]
    show Except.ok (natToChars 9999 ++ ['-', '1', '1', '-', '1', '5'],
        intToChars (((9999 : Nat) : Int) + 1) ++ ['-', '0', '3', '-', '3', '1'])
      = Except.ok (natToChars 9999 ++ ['-', '1', '1', '-', '1', '5'],
        natToChars 10000 ++ ['-', '0', '3', '-', '3', '1'])
    rw [intToChars_add_one 9999]
  · exact cdq_err _ (strptime_badyear (natToChars 10000) ['0', '3'] ['3', '1']
      (by rw [natToChars_len5]; norm_num) (natToChars_no_dash 10000) (by decide) (by decide))

/-- C5 witness: the amended round trip at the concrete label 2013-Q1. -/
theorem C5_witness :
    ∃ s e, convert_quarter_to_dates (quarterLabel 2013 1) = .ok (s, e)
      ∧ convert_date_to_quarter s = .ok (quarterLabel 2013 1)
      ∧ convert_date_to_quarter e = .ok (quarterLabel 2013 1) :=
  C5_quarter_round_trip 2013 1 (by norm_num) (by norm_num) (by norm_num) (by norm_num)
    (Or.inl rfl)

/-- C6: totality of `convert_date_to_quarter`.  First conjunct: for every
string the `strptime` model parses, the function returns a label and never
raises (the Python fall-through included).  Second conjunct: over every
(month, day) of a calendar date, exactly one of the five disclosure-window
branch conditions holds — no range is uncovered (so the dead fall-through
is never reached) and no two branches overlap. -/
theorem C6_date_to_quarter_total :
    (∀ (s : List Char) (y m d : Nat), strptimeYMD s = some (y, m, d) →
      ∃ q, convert_date_to_quarter s = .ok q)
    ∧ (∀ m d : Nat, 1 ≤ m → m ≤ 12 → 1 ≤ d → d ≤ 31 →
        (q1Cond m d ∨ q2Cond m d ∨ q3Cond m d ∨ q4Cond m d ∨ q5Cond m d)
        ∧ ¬(q1Cond m d ∧ q2Cond m d) ∧ ¬(q1Cond m d ∧ q3Cond m d)
        ∧ ¬(q1Cond m d ∧ q4Cond m d) ∧ ¬(q1Cond m d ∧ q5Cond m d)
        ∧ ¬(q2Cond m d ∧ q3Cond m d) ∧ ¬(q2Cond m d ∧ q4Cond m d)
        ∧ ¬(q2Cond m d ∧ q5Cond m d) ∧ ¬(q3Cond m d ∧ q4Cond m d)
        ∧ ¬(q3Cond m d ∧ q5Cond m d) ∧ ¬(q4Cond m d ∧ q5Cond m d)) := by
  constructor
  · intro s y m d hs
    rw [cdq_eval s y m d hs]
    by_cases h1 : q1Cond m d
    · rw [if_pos h1]; exact ⟨_, rfl⟩
    rw [if_neg h1]
    by_cases h2 : q2Cond m d
    · rw [if_pos h2]; exact ⟨_, rfl⟩
    rw [if_neg h2]
    by_cases h3 : q3Cond m d
    · rw [if_pos h3]; exact ⟨_, rfl⟩
    rw [if_neg h3]
    by_cases h4 : q4Cond m d
    · rw [if_pos h4]; exact ⟨_, rfl⟩
    rw [if_neg h4]
    by_cases h5 : q5Cond m d
    · rw [if_pos h5]; exact ⟨_, rfl⟩
    rw [if_neg h5]
    exact ⟨_, rfl⟩
  · intro m d h1 h2 h3 h4
    unfold q1Cond q2Cond q3Cond q4Cond q5Cond
    omega

/-- C6 witness: the parse succeeds on 2013-05-16 and the function returns
a label there; exactly-one-branch holds at (month 5, day 16). -/
theorem C6_witness :
    (∃ q, convert_date_to_quarter
      ['2', '0', '1', '3', '-', '0', '5', '-', '1', '6'] = .ok q)
    ∧ ((q1Cond 5 16 ∨ q2Cond 5 16 ∨ q3Cond 5 16 ∨ q4Cond 5 16 ∨ q5Cond 5 16)
        ∧ ¬(q1Cond 5 16 ∧ q2Cond 5 16) ∧ ¬(q1Cond 5 16 ∧ q3Cond 5 16)
        ∧ ¬(q1Cond 5 16 ∧ q4Cond 5 16) ∧ ¬(q1Cond 5 16 ∧ q5Cond 5 16)
        ∧ ¬(q2Cond 5 16 ∧ q3Cond 5 16) ∧ ¬(q2Cond 5 16 ∧ q4Cond 5 16)
        ∧ ¬(q2Cond 5 16 ∧ q5Cond 5 16) ∧ ¬(q3Cond 5 16 ∧ q4Cond 5 16)
        ∧ ¬(q3Cond 5 16 ∧ q5Cond 5 16) ∧ ¬(q4Cond 5 16 ∧ q5Cond 5 16)) := by
  constructor
  · exact C6_date_to_quarter_total.1 _ 2013 5 16 (by decide)
  · exact C6_date_to_quarter_total.2 5 16 (by norm_num) (by norm_num) (by norm_num)
      (by norm_num)

/-- C8: error condition for `convert_quarter_to_dates`, amended.  The
function raises exactly when the label does not split on '-' into two
parts `[year, qtr]` with `qtr` one of Q1-Q4 and, for Q3/Q4, `int(year)`
parseable.  The claim's 4-digit-year requirement is never checked: for
Q1/Q2 the year part is interpolated verbatim, whatever it is, and for
Q3/Q4 any `int()`-parseable string passes. -/
theorem C8_error_iff (label : List Char) :
    (∃ msg, convert_quarter_to_dates label = .error msg)
      ↔ ¬ (∃ ys qs, splitOnChar '-' label = [ys, qs]
            ∧ (qs = ['Q', '1'] ∨ qs = ['Q', '2']
               ∨ ((qs = ['Q', '3'] ∨ qs = ['Q', '4']) ∧ (pyInt ys).isSome = true))) := by
  rcases hsp : splitOnChar '-' label with _ | ⟨ys, _ | ⟨qs, _ | ⟨z, rest⟩⟩⟩
  · unfold convert_quarter_to_dates
    rw [hsp]
    refine iff_of_true ⟨"ValueError: unpacking", rfl⟩ ?_
    rintro ⟨ys', qs', heq, _⟩
    simp at heq
  · unfold convert_quarter_to_dates
    rw [hsp]
    refine iff_of_true ⟨"ValueError: unpacking", rfl⟩ ?_
    rintro ⟨ys', qs', heq, _⟩
    simp at heq
  · rw [cqd_eval label ys qs hsp]
    by_cases h1 : qs = ['Q', '1']
    · rw [if_pos h1]
      exact iff_of_false (fun ⟨msg, hm⟩ => Except.noConfusion hm)
        (fun hn => hn ⟨ys, qs, rfl, Or.inl h1⟩)
    rw [if_neg h1]
    by_cases h2 : qs = ['Q', '2']
    · rw [if_pos h2]
      exact iff_of_false (fun ⟨msg, hm⟩ => Except.noConfusion hm)
        (fun hn => hn ⟨ys, qs, rfl, Or.inr (Or.inl h2)⟩)
    rw [if_neg h2]
    by_cases h3 : qs = ['Q', '3']
    · rw [if_pos h3]
      rcases hpi : pyInt ys with _ | n
      · refine iff_of_true ⟨"ValueError: invalid literal for int", rfl⟩ ?_
        rintro ⟨ys', qs', heq, hd⟩
        injection heq with e1 e2
        injection e2 with e3 e4
        subst e1
        subst e3
        rcases hd with h | h | ⟨h34, hsome⟩
        · exact h1 h
        · exact h2 h
        · rw [hpi] at hsome
          exact Bool.noConfusion hsome
      · exact iff_of_false (fun ⟨msg, hm⟩ => Except.noConfusion hm)
          (fun hn => hn ⟨ys, qs, rfl, Or.inr (Or.inr ⟨Or.inl h3, by simp [hpi]⟩)⟩)
    rw [if_neg h3]
    by_cases h4 : qs = ['Q', '4']
    · rw [if_pos h4]
      rcases hpi : pyInt ys with _ | n
      · refine iff_of_true ⟨"ValueError: invalid literal for int", rfl⟩ ?_
        rintro ⟨ys', qs', heq, hd⟩
        injection heq with e1 e2
        injection e2 with e3 e4
        subst e1
        subst e3
        rcases hd with h | h | ⟨h34, hsome⟩
        · exact h1 h
        · exact h2 h
        · rw [hpi] at hsome
          exact Bool.noConfusion hsome
      · exact iff_of_false (fun ⟨msg, hm⟩ => Except.noConfusion hm)
          (fun hn => hn ⟨ys, qs, rfl, Or.inr (Or.inr ⟨Or.inr h4, by simp [hpi]⟩)⟩)
    rw [if_neg h4]
    refine iff_of_true ⟨"ValueError: Invalid quarter", rfl⟩ ?_
    rintro ⟨ys', qs', heq, hd⟩
    injection heq with e1 e2
    injection e2 with e3 e4
    subst e1
    subst e3
    rcases hd with h | h | ⟨h34, hsome⟩
    · exact h1 h
    · exact h2 h
    · rcases h34 with h | h
      · exact h3 h
      · exact h4 h
  · unfold convert_quarter_to_dates
    rw [hsp]
    refine iff_of_true ⟨"ValueError: unpacking", rfl⟩ ?_
    rintro ⟨ys', qs', heq, _⟩
    simp at heq

/-- C8 counterexample: the label "abcd-Q1" is malformed by the claim's
standard (its year part is not a 4-digit integer: `int("abcd")` fails),
yet `convert_quarter_to_dates` returns a window without error,
splicing the non-numeric year verbatim into both dates. -/
theorem C8_counterexample :
    convert_quarter_to_dates ['a', 'b', 'c', 'd', '-', 'Q', '1']
      = .ok (['a', 'b', 'c', 'd', '-', '0', '5', '-', '1', '6'],
             ['a', 'b', 'c', 'd', '-', '0', '8', '-', '1', '4'])
    ∧ pyInt ['a', 'b', 'c', 'd'] = none := by
  constructor
  · rfl
  · rfl

/-- C8 witness: the amended criterion at the concrete malformed label
"2013-Q5" (unknown quarter token): the function raises. -/
theorem C8_witness :
    ∃ msg, convert_quarter_to_dates ['2', '0', '1', '3', '-', 'Q', '5'] = .error msg := by
  refine (C8_error_iff ['2', '0', '1', '3', '-', 'Q', '5']).mpr ?_
  rintro ⟨ys, qs, heq, hd⟩
  rw [show splitOnChar '-' ['2', '0', '1', '3', '-', 'Q', '5']
      = [['2', '0', '1', '3'], ['Q', '5']] from rfl] at heq
  injection heq with e1 e2
  injection e2 with e3 e4
  subst e3
  rcases hd with h | h | ⟨h34, hsome⟩
  · exact absurd h (by decide)
  · exact absurd h (by decide)
  · rcases h34 with h | h
    · exact absurd h (by decide)
    · exact absurd h (by decide)
